import Mathlib

/-
Verification of the file-processing library: a CSV parser/serializer
(`src/csv_lib.py`) and a JSON parser/serializer (`src/json_lib.py`).

Texts are modelled as `List Char`, positions as `Nat`, and Python
`SyntaxError` as an explicit error value carrying the human-readable
message and the absolute offset that the source interpolates into the
message.  Python control flow (loops with `continue`) becomes explicit
state passing; `try/except IndexError` becomes a `none` branch of an
indexed lookup.
-/

namespace FileProc

/-- Python `SyntaxError`: the source embeds the offset into the message
string; here the message template and the offset are carried as separate
fields. -/
structure SyntaxErr where
  msg : String
  pos : Nat
deriving DecidableEq

instance {ε α : Type} [DecidableEq ε] [DecidableEq α] : DecidableEq (Except ε α) :=
  fun x y =>
    match x, y with
    | .error a, .error b =>
      if h : a = b then .isTrue (by rw [h]) else .isFalse (by intro hc; injection hc; contradiction)
    | .ok a, .ok b =>
      if h : a = b then .isTrue (by rw [h]) else .isFalse (by intro hc; injection hc; contradiction)
    | .error _, .ok _ => .isFalse (by intro hc; exact Except.noConfusion hc)
    | .ok _, .error _ => .isFalse (by intro hc; exact Except.noConfusion hc)

/-- Python `s.startswith(t)` on character lists. -/
def startswith : List Char → List Char → Bool
  | _, [] => true
  | [], _ :: _ => false
  | c :: l, d :: s => if c = d then startswith l s else false

/-- Python `sep.join(parts)` on character lists. -/
def joinWith (sep : List Char) : List (List Char) → List Char
  | [] => []
  | [x] => x
  | x :: xs => x ++ sep ++ joinWith sep xs

/-- Flattening map over a list, used to model Python `str.replace` with a
single-character pattern. -/
def concatMap (f : α → List β) : List α → List β
  | [] => []
  | a :: l => f a ++ concatMap f l

/- ## CSV (src/csv_lib.py) -/

/-- Python `cell.strip(Char.quotation)` from `unescape_csv_cell`: removes every
leading and trailing double-quote character. -/
def stripQuotes (l : List Char) : List Char :=
  ((l.dropWhile (· = '"')).reverse.dropWhile (· = '"')).reverse

/-- Python `cell.replace(doubled-quote, quote)` from `unescape_csv_cell`: a
left-to-right non-overlapping replacement of two double quotes by one. -/
def collapseQQ : List Char → List Char
  | [] => []
  | [c] => [c]
  | c :: d :: rest =>
    if c = '"' ∧ d = '"' then '"' :: collapseQQ rest
    else c :: collapseQQ (d :: rest)

/-- Embedding of `unescape_csv_cell` (csv_lib.py lines 103-107). -/
def unescape_csv_cell (cell : List Char) : List Char :=
  collapseQQ (stripQuotes cell)

/-- The scan state of `parse_csv` (csv_lib.py lines 14-26). -/
structure CsvSt where
  lines : List (List (List Char))
  currentRow : List (List Char)
  outOfCell : Bool
  cellStartInd : Nat
  cellIsQuoted : Bool
  lastWasQuote : Bool
deriving DecidableEq

/-- One iteration of the `for i in range(len(csv))` loop of `parse_csv`
(csv_lib.py lines 29-81), for character `c` at index `i`. -/
def parse_csv_step (csv : List Char) (qc cc nl : Char) (i : Nat) (c : Char)
    (st0 : CsvSt) : Except SyntaxErr CsvSt :=
  let could : Bool := c = cc ∨ c = nl
  let entered : Bool := st0.outOfCell
  let st := if st0.outOfCell then
      { st0 with outOfCell := false, cellStartInd := i, lastWasQuote := false,
                 cellIsQuoted := c = qc }
    else st0
  if entered ∧ ¬could then .ok st
  else if ¬st.cellIsQuoted ∧ c = qc then
    .error ⟨"Unexpected quote in CSV", i⟩
  else if st.cellIsQuoted ∧ st.lastWasQuote ∧ ¬could then
    (if c = qc then .ok { st with lastWasQuote := false }
     else .error ⟨"Expected comma, new line, or quote following another quote", i⟩)
  else if (if st.cellIsQuoted then st.lastWasQuote else true) ∧ could then
    let cellText := (csv.drop st.cellStartInd).take (i - st.cellStartInd)
    let cellText := if st.cellIsQuoted then unescape_csv_cell cellText else cellText
    let row := st.currentRow ++ [cellText]
    if c = nl then
      .ok { st with outOfCell := true, lastWasQuote := false, cellIsQuoted := false,
                    lines := st.lines ++ [row], currentRow := [] }
    else
      .ok { st with outOfCell := true, lastWasQuote := false, cellIsQuoted := false,
                    currentRow := row }
  else if st.cellIsQuoted ∧ c = qc then .ok { st with lastWasQuote := true }
  else .ok { st with lastWasQuote := false }

/-- The whole character loop of `parse_csv`, iterating `parse_csv_step` over the
remaining characters, tracking the absolute index `i`. -/
def parse_csv_go (csv : List Char) (qc cc nl : Char) :
    List Char → Nat → CsvSt → Except SyntaxErr CsvSt
  | [], _, st => .ok st
  | c :: rest, i, st =>
    match parse_csv_step csv qc cc nl i c st with
    | .error e => .error e
    | .ok st2 => parse_csv_go csv qc cc nl rest (i + 1) st2

/-- Final `if len(current_row): lines.append(current_row)` (csv_lib.py lines 98-99). -/
def csvFinish (lines : List (List (List Char))) (row : List (List Char)) :
    List (List (List Char)) :=
  if row.length ≠ 0 then lines ++ [row] else lines

/-- The after-loop trailing-cell handling of `parse_csv`
(csv_lib.py lines 83-101).  `csv.endswith(comma_char)` for a single-character
separator is the `getLast?` test. -/
def csv_epilogue (csv : List Char) (cc : Char) (st : CsvSt) :
    Except SyntaxErr (List (List (List Char))) :=
  if st.cellIsQuoted then
    if st.lastWasQuote then
      .ok (csvFinish st.lines (st.currentRow ++ [unescape_csv_cell (csv.drop st.cellStartInd)]))
    else .error ⟨"Unexpected end of input in CSV, expected quote", csv.length⟩
  else if ¬st.outOfCell then
    .ok (csvFinish st.lines (st.currentRow ++ [csv.drop st.cellStartInd]))
  else if csv.getLast? = some cc then
    .ok (csvFinish st.lines (st.currentRow ++ [[]]))
  else .ok (csvFinish st.lines st.currentRow)

/-- Initial scan state of `parse_csv` (csv_lib.py lines 14-26). -/
def csvInit : CsvSt := ⟨[], [], true, 0, false, false⟩

/-- Embedding of `parse_csv` (csv_lib.py lines 10-101).  The Python default arguments are
`quote_char = Char.quotation`, `comma_char = comma`, `new_line_char = LF`; they are
passed explicitly here. -/
def parse_csv (csv : List Char) (qc cc nl : Char) :
    Except SyntaxErr (List (List (List Char))) :=
  match parse_csv_go csv qc cc nl csv 0 csvInit with
  | .error e => .error e
  | .ok st => csv_epilogue csv cc st

/-- The composition of the character loop result with the after-loop epilogue
of `parse_csv`, named so that the loop result can be manipulated separately. -/
def parse_csv_finish (csv : List Char) (cc : Char) (r : Except SyntaxErr CsvSt) :
    Except SyntaxErr (List (List (List Char))) :=
  match r with
  | .error e => .error e
  | .ok st => csv_epilogue csv cc st

/-- The `csv.replace(quote, doubled-quote)` of `str_to_csv` (hard-coded to the
double-quote character in the source, line 138). -/
def escq (cell : List Char) : List Char :=
  concatMap (fun c => if c = '"' then ['"', '"'] else [c]) cell

/-- Embedding of `str_to_csv` (csv_lib.py lines 131-139).  Note the source tests membership
of the three configurable characters but wraps and doubles with the literal
double-quote character. -/
def str_to_csv (cell : List Char) (qc cc nl : Char) : List Char :=
  if qc ∈ cell ∨ cc ∈ cell ∨ nl ∈ cell then '"' :: (escq cell ++ ['"'])
  else cell

/-- Embedding of `strs_to_csv` (csv_lib.py lines 124-129): escape each cell, join cells of a
row with the comma character, join rows with the newline character. -/
def strs_to_csv (t : List (List (List Char))) (qc cc nl : Char) : List Char :=
  joinWith [nl] (t.map (fun row => joinWith [cc] (row.map (fun cell => str_to_csv cell qc cc nl))))

/-- The cell serializer of `strs_to_csv` at the Python default delimiters
(quote, comma, linefeed). -/
def serCell (cell : List Char) : List Char := str_to_csv cell '"' ',' '\n'

/-- The row serializer of `strs_to_csv` at the default delimiters: cells joined
by the comma character. -/
def serRow (row : List (List Char)) : List Char := joinWith [','] (row.map serCell)

/-- Edge condition on a cell under which `unescape_csv_cell` is injective on
serialized cells: the Python `strip` in the parser removes every edge quote,
so round-tripping requires the cell not to start or end with a double quote. -/
def cellOk (cell : List Char) : Prop :=
  cell.head? ≠ some '"' ∧ cell.getLast? ≠ some '"'

instance (cell : List Char) : Decidable (cellOk cell) :=
  decidable_of_iff (cell.head? ≠ some '"' ∧ cell.getLast? ≠ some '"') Iff.rfl

/- ## Position resolver -/

/-- Counter loop of `get_line_and_col` (csv_lib.py lines 114-119), iterating
over the characters strictly before the requested index, at absolute position
`i`, carrying `line_count` and `last_line_index`. -/
def glc_go : List Char → Nat → Nat → Nat → Nat × Nat
  | [], _, lc, lli => (lc, lli)
  | c :: rest, i, lc, lli =>
    if c = '\n' then glc_go rest (i + 1) (lc + 1) i else glc_go rest (i + 1) lc lli

/-- Embedding of `get_line_and_col` (csv_lib.py lines 109-120). -/
def get_line_and_col (text : List Char) (index : Nat) : Nat × Nat :=
  let r := glc_go (text.take index) 0 0 0
  (r.1, index - r.2)

/- ## JSON parser (src/json_lib.py) -/

/-- Source constant `JSON_WHITESPACE` (json_lib.py line 14). -/
def JSON_WHITESPACE : List Char := [' ', '\t', '\r', '\n']

/-- Source constant `JSON_NUM_START_CHARS` (json_lib.py line 15). -/
def JSON_NUM_START_CHARS : List Char :=
  ['0', '1', '2', '3', '4', '5', '6', '7', '8', '9', '-']

/-- Source constant `JSON_NUM_CHARS` (json_lib.py line 16). -/
def JSON_NUM_CHARS : List Char :=
  ['0', '1', '2', '3', '4', '5', '6', '7', '8', '9', '.', 'e', 'E', '+', '-']

/-- Decimal digit test, Python `c0 <= c <= c9`. -/
def isDigit (c : Char) : Bool := '0' ≤ c ∧ c ≤ '9'

/-- Embedding of `skip_whitespace` (json_lib.py lines 239-245): the `while`
bumps the cursor once per leading whitespace character. -/
def skip_whitespace (json : List Char) (i : Nat) : Nat :=
  i + ((json.drop i).takeWhile (fun c => c ∈ JSON_WHITESPACE)).length

/-- Python `SyntaxError` raised by the `except IndexError` handlers and the
end-of-input check (json_lib.py lines 55-56, 95-96, 120-121, 185-186). -/
def eofErr (json : List Char) : SyntaxErr := ⟨"Unexpected end of file", json.length⟩

/-- The parsed JSON values: `dict | list | str | float | bool | None`
(json_lib.py line 18).  Numbers carry the exact rational value of the decimal
literal (binary64 rounding of Python `float` is not modelled). -/
inductive Value where
  | null
  | bool (b : Bool)
  | num (q : ℚ)
  | str (s : List Char)
  | arr (l : List Value)
  | obj (l : List (List Char × Value))

/-- Value of a decimal digit string, Python `int`-style accumulation. -/
def digitsToNat (l : List Char) : Nat := l.foldl (fun a c => 10 * a + (c.toNat - 48)) 0

/-- Powers of ten in `ℚ`. -/
def pow10 (n : Nat) : ℚ := (10 : ℚ) ^ n

/-- Model of Python `float(num)` (json_lib.py line 237) on a token accepted by
the number validator: the exact rational value of the decimal literal
`sign? digits (dot digits)? (e sign? digits)?` (the rounding to binary64 is
not modelled). -/
def decimal_value (num : List Char) : ℚ :=
  let m := if num.head? = some '-' then num.tail else num
  let sgn : ℚ := if num.head? = some '-' then -1 else 1
  let ip := m.takeWhile isDigit
  let r1 := m.drop ip.length
  let fp := match r1 with
    | '.' :: r => r.takeWhile isDigit
    | _ => []
  let r2 := match r1 with
    | '.' :: r => r.drop (r.takeWhile isDigit).length
    | _ => r1
  let ex : Int := match r2 with
    | _ :: '-' :: d => -(digitsToNat d : Int)
    | _ :: '+' :: d => (digitsToNat d : Int)
    | _ :: d => (digitsToNat d : Int)
    | [] => 0
  let base : ℚ := sgn * ((digitsToNat ip : ℚ) + (digitsToNat fp : ℚ) / pow10 fp.length)
  if 0 ≤ ex then base * pow10 ex.toNat else base / pow10 (-ex).toNat

/-- Exponent-marker test: the source lowercases and searches `e`
(json_lib.py line 206). -/
def isE (c : Char) : Bool := c = 'e' ∨ c = 'E'

/-- The digit-or-dot loop over the pre-exponent segment of a number token
(json_lib.py lines 213-221), carrying `reached_dec` and the error cursor. -/
def num_seg_loop : List Char → Bool → Nat → Except SyntaxErr Unit
  | [], _, _ => .ok ()
  | c :: rest, reachedDec, i =>
    if c = '.' then
      if reachedDec then .error ⟨"Unexpected second decimal point", i⟩
      else num_seg_loop rest true (i + 1)
    else if c < '0' ∨ '9' < c then .error ⟨"Unexpected character, expected a digit", i⟩
    else num_seg_loop rest reachedDec i

/-- The digit loop over the exponent segment of a number token
(json_lib.py lines 232-235). -/
def num_exp_loop : List Char → Nat → Except SyntaxErr Unit
  | [], _ => .ok ()
  | c :: rest, i =>
    if c < '0' ∨ '9' < c then .error ⟨"Unexpected character, expected a digit", i⟩
    else num_exp_loop rest (i + 1)

/-- The sign-independent validation checks of `parse_json_number`
(json_lib.py lines 200-235), applied to the token with a leading minus
already stripped (`num` in the source) and the cursor `i1` just past it. -/
def validate_json_num_rest (num : List Char) (i1 : Nat) : Except SyntaxErr Unit :=
  if startswith num ['.'] then
    .error ⟨"Unexpected decimal point, expected a digit beforehand", i1⟩
  else if 2 ≤ num.length ∧ num.head? = some '0' ∧
      ('0' ≤ num.getD 1 'x' ∧ num.getD 1 'x' ≤ '9') then
    .error ⟨"Unexpected digit following a zero", i1 + 1⟩
  else
    let eIndex := num.findIdx isE
    let beforeE := num.take eIndex
    if beforeE.getLast? = some '.' then
      .error ⟨"Unexpected decimal point, expected no decimal point or a following digit",
              i1 + beforeE.length - 1⟩
    else if beforeE.length = 0 then
      .error ⟨"Unexpected end of non-exponent segment of number", i1⟩
    else
      match num_seg_loop beforeE false i1 with
      | .error e => .error e
      | .ok _ =>
        if eIndex ≠ num.length then
          let afterE := num.drop (eIndex + 1)
          let signed := startswith afterE ['+'] ∨ startswith afterE ['-']
          let afterE2 := if signed then afterE.tail else afterE
          let i2 := if signed then eIndex + 2 else eIndex + 1
          if afterE2.length = 0 then
            .error ⟨"Unexpected end of number, expected a digit", i2⟩
          else
            match num_exp_loop afterE2 i2 with
            | .error e => .error e
            | .ok _ => .ok ()
        else .ok ()

/-- The validation part of `parse_json_number` (json_lib.py lines 193-237),
applied to the greedily scanned token `tok = json[i:ind]`: the empty-token
and leading-minus handling of lines 194-199, then the checks of
`validate_json_num_rest`, then `float(num)` on the re-signed token. -/
def validate_json_number (tok : List Char) (i : Nat) : Except SyntaxErr ℚ :=
  let negative := startswith tok ['-']
  if tok.length = 0 then .error ⟨"Unexpected empty number string", i⟩
  else
    let num := if negative then tok.tail else tok
    let i1 := if negative then i + 1 else i
    match validate_json_num_rest num i1 with
    | .error e => .error e
    | .ok _ => .ok (decimal_value tok)

/-- The greedy token scan of `parse_json_number` (json_lib.py lines 190-192):
the `while` over `JSON_NUM_CHARS` starting at `i`. -/
def numToken (json : List Char) (i : Nat) : List Char :=
  (json.drop i).takeWhile (fun c => c ∈ JSON_NUM_CHARS)

/-- Embedding of `parse_json_number` (json_lib.py lines 189-237): greedy scan,
validation, and conversion of the token. -/
def parse_json_number (json : List Char) (i : Nat) : Except SyntaxErr (ℚ × Nat) :=
  match validate_json_number (numToken json i) i with
  | .error e => .error e
  | .ok q => .ok (q, i + (numToken json i).length)

/-- Hexadecimal digit test of the string parser, after lowercasing
(json_lib.py line 149). -/
def isHexDigit (c : Char) : Bool := ('0' ≤ c ∧ c ≤ '9') ∨ ('a' ≤ c ∧ c ≤ 'f')

/-- Python `int(hex_char_str, 16)` on four lowercased hex digits. -/
def hexToNat (l : List Char) : Nat :=
  l.foldl (fun a c => 16 * a + (if c ≤ '9' then c.toNat - 48 else c.toNat - 87)) 0

/-- The character loop of `parse_json_str` (json_lib.py lines 141-187): `acc`
is `char_list`, `hexStr` the in-progress `u`-escape state, `lastEsc` the
pending-backslash flag.  A `u`-escape denoting a surrogate code point
(unrepresentable in `Char`) maps through the `Char.ofNat` fallback; no claim
settled in this development depends on such inputs.  Fuel only bounds the
iteration count; `parse_json_str` supplies more than the loop can consume. -/
def parse_json_str_go :
    Nat → List Char → Nat → Bool → Option (List Char) → List Char →
    Except SyntaxErr (List Char × Nat)
  | 0, _, i, _, _, _ => .error ⟨"out of fuel", i⟩
  | fuel + 1, json, i, lastEsc, hexStr, acc =>
    match json.get? i with
    | none => .error (eofErr json)
    | some c =>
      match hexStr with
      | some h =>
        let l := c.toLower
        if isHexDigit l then
          let h2 := h ++ [l]
          if h2.length = 4 then
            parse_json_str_go fuel json (i + 1) lastEsc none (acc ++ [Char.ofNat (hexToNat h2)])
          else parse_json_str_go fuel json (i + 1) lastEsc (some h2) acc
        else .error ⟨"Unexpected character, expected a hexadecimal character", i + 1⟩
      | none =>
        if c = '"' ∧ ¬lastEsc then .ok (acc, i + 1)
        else if lastEsc then
          if c = 'b' then parse_json_str_go fuel json (i + 1) false none (acc ++ ['\x08'])
          else if c = 'f' then parse_json_str_go fuel json (i + 1) false none (acc ++ ['\x0c'])
          else if c = 'n' then parse_json_str_go fuel json (i + 1) false none (acc ++ ['\n'])
          else if c = 't' then parse_json_str_go fuel json (i + 1) false none (acc ++ ['\t'])
          else if c = 'r' then parse_json_str_go fuel json (i + 1) false none (acc ++ ['\r'])
          else if c = '/' then parse_json_str_go fuel json (i + 1) false none (acc ++ ['/'])
          else if c = '"' then parse_json_str_go fuel json (i + 1) false none (acc ++ ['"'])
          else if c = '\\' then parse_json_str_go fuel json (i + 1) false none (acc ++ ['\\'])
          else if c = 'u' then parse_json_str_go fuel json (i + 1) false (some []) acc
          else .error ⟨"Unexpected escape character", i + 1⟩
        else if c = '\\' then parse_json_str_go fuel json (i + 1) true none acc
        else if ¬(('\x20' ≤ c ∧ c ≤ '\x21') ∨ ('\x23' ≤ c ∧ c ≤ '\x5b') ∨ '\x5d' ≤ c) then
          .error ⟨"Unexpected character, expected a character in the allowed ranges", i + 1⟩
        else parse_json_str_go fuel json (i + 1) false none (acc ++ [c])

/-- Embedding of `parse_json_str` (json_lib.py lines 134-187).  An initial
index at or past the end (whose `IndexError` the object/array parsers convert)
yields the same end-of-file error those handlers raise. -/
def parse_json_str (json : List Char) (i : Nat) : Except SyntaxErr (List Char × Nat) :=
  match json.get? i with
  | none => .error (eofErr json)
  | some c =>
    if c ≠ '"' then .error ⟨"Unexpected character, expected a quote", i⟩
    else parse_json_str_go (json.length + 1) json (i + 1) false none []

/-- Embedding of `parse_json_null` (json_lib.py lines 124-127). -/
def parse_json_null (json : List Char) (i : Nat) : Except SyntaxErr (Value × Nat) :=
  if ¬ startswith (json.drop i) ("null".toList) then
    .error ⟨"Unexpected string, expected null", i⟩
  else .ok (.null, i + 4)

/-- Embedding of `parse_json_boolean` (json_lib.py lines 129-132). -/
def parse_json_boolean (json : List Char) (i : Nat) : Except SyntaxErr (Value × Nat) :=
  if ¬ startswith (json.drop i) ("true".toList) ∧
     ¬ startswith (json.drop i) ("false".toList) then
    .error ⟨"Unexpected string, expected true or false", i⟩
  else if (json.drop i).take 4 = ("true".toList) then .ok (.bool true, i + 4)
  else .ok (.bool false, i + 5)

/-- Python ordered-`dict` assignment `obj[key] = val` (json_lib.py line 85):
overwrite the value in place if the key is present, else append the pair. -/
def dictInsert : List (List Char × Value) → List Char → Value → List (List Char × Value)
  | [], k, v => [(k, v)]
  | (k1, v1) :: rest, k, v =>
    if k1 = k then (k1, v) :: rest else (k1, v1) :: dictInsert rest k v

/-- The bundle of the five mutually recursive parsing functions of
json_lib.py, staged on the recursion depth: `base` is `parse_json_base`,
`obj`/`objLoop` are `parse_json_obj` and its `while True` pair loop,
`arr`/`arrLoop` are `parse_json_arr` and its element loop.  Staging the
mutual recursion on an explicit fuel keeps every definition structurally
recursive (so concrete runs evaluate inside proofs); the fuel only bounds
the Python call-stack depth and claims quantify over it. -/
structure JsonP where
  base : List Char → Nat → Except SyntaxErr (Value × Nat)
  obj : List Char → Nat → Except SyntaxErr (Value × Nat)
  objLoop : List Char → Nat → List (List Char × Value) → Except SyntaxErr (Value × Nat)
  arr : List Char → Nat → Except SyntaxErr (Value × Nat)
  arrLoop : List Char → Nat → List Value → Except SyntaxErr (Value × Nat)

/-- One stage of the recursive parser bundle: each function of depth
`fuel + 1` is the body of the corresponding source function, with its
recursive calls taken from the depth-`fuel` bundle `p`.

`base` is `parse_json_base` (json_lib.py lines 53-66): skip whitespace, then
dispatch on the lookahead character.  `obj` is `parse_json_obj` up to the
`while` (lines 68-76): brace check, whitespace, empty-object case, then the
pair loop.  `objLoop` is the `while True` pair loop (lines 77-94) with the
accumulated dict `obj`; the `except IndexError` of line 95 appears as the
`none` branches.  `arr` and `arrLoop` are the same for `parse_json_arr`
(lines 99-122). -/
def jsonP : Nat → JsonP
  | 0 =>
    ⟨fun _ i => .error ⟨"out of fuel", i⟩,
     fun _ i => .error ⟨"out of fuel", i⟩,
     fun _ i _ => .error ⟨"out of fuel", i⟩,
     fun _ i => .error ⟨"out of fuel", i⟩,
     fun _ i _ => .error ⟨"out of fuel", i⟩⟩
  | fuel + 1 =>
    let p := jsonP fuel
    { base := fun json i0 =>
        let i := skip_whitespace json i0
        match json.get? i with
        | none => .error (eofErr json)
        | some c =>
          if c = '\x7b' then p.obj json i
          else if c = '[' then p.arr json i
          else if c = '"' then
            match parse_json_str json i with
            | .error e => .error e
            | .ok (s, j) => .ok (.str s, j)
          else if c = 'n' then parse_json_null json i
          else if c = 't' ∨ c = 'f' then parse_json_boolean json i
          else if c ∈ JSON_NUM_START_CHARS then
            match parse_json_number json i with
            | .error e => .error e
            | .ok (q, j) => .ok (.num q, j)
          else .error ⟨"Unexpected character", i⟩,
      obj := fun json i0 =>
        if json.get? i0 ≠ some '\x7b' then
          .error ⟨"Unexpected character, expected an opening brace", i0⟩
        else
          let i := skip_whitespace json (i0 + 1)
          match json.get? i with
          | none => .error (eofErr json)
          | some c =>
            if c = '\x7d' then .ok (.obj [], i + 1)
            else p.objLoop json i [],
      objLoop := fun json i0 obj =>
        match parse_json_str json i0 with
        | .error e => .error e
        | .ok (key, i1) =>
          let i2 := skip_whitespace json i1
          match json.get? i2 with
          | none => .error (eofErr json)
          | some c =>
            if c ≠ ':' then .error ⟨"Unexpected character, expected a colon", i2⟩
            else
              match p.base json (skip_whitespace json (i2 + 1)) with
              | .error e => .error e
              | .ok (val, i3) =>
                let obj2 := dictInsert obj key val
                let i4 := skip_whitespace json i3
                match json.get? i4 with
                | none => .error (eofErr json)
                | some c2 =>
                  if c2 = '\x7d' then .ok (.obj obj2, i4 + 1)
                  else if c2 ≠ ',' then
                    .error ⟨"Unexpected character, expected a comma or a closing brace", i4⟩
                  else p.objLoop json (skip_whitespace json (i4 + 1)) obj2,
      arr := fun json i0 =>
        if json.get? i0 ≠ some '[' then
          .error ⟨"Unexpected character, expected an opening bracket", i0⟩
        else
          let i := skip_whitespace json (i0 + 1)
          match json.get? i with
          | none => .error (eofErr json)
          | some c =>
            if c = ']' then .ok (.arr [], i + 1)
            else p.arrLoop json i [],
      arrLoop := fun json i0 arr =>
        match p.base json i0 with
        | .error e => .error e
        | .ok (val, i1) =>
          let arr2 := arr ++ [val]
          let i2 := skip_whitespace json i1
          match json.get? i2 with
          | none => .error (eofErr json)
          | some c =>
            if c = ']' then .ok (.arr arr2, i2 + 1)
            else if c ≠ ',' then
              .error ⟨"Unexpected character, expected a comma or a closing bracket", i2⟩
            else p.arrLoop json (skip_whitespace json (i2 + 1)) arr2 }

/-- Embedding of `parse_json_base` (json_lib.py lines 53-66), at recursion
depth `fuel`. -/
def parse_json_base (fuel : Nat) (json : List Char) (i : Nat) :
    Except SyntaxErr (Value × Nat) := (jsonP fuel).base json i

/-- Embedding of `parse_json_obj` (json_lib.py lines 68-97), at recursion
depth `fuel`. -/
def parse_json_obj (fuel : Nat) (json : List Char) (i : Nat) :
    Except SyntaxErr (Value × Nat) := (jsonP fuel).obj json i

/-- The `while True` pair loop of `parse_json_obj` (json_lib.py lines 77-94),
at recursion depth `fuel`. -/
def parse_json_obj_loop (fuel : Nat) (json : List Char) (i : Nat)
    (obj : List (List Char × Value)) : Except SyntaxErr (Value × Nat) :=
  (jsonP fuel).objLoop json i obj

/-- Embedding of `parse_json_arr` (json_lib.py lines 99-122), at recursion
depth `fuel`. -/
def parse_json_arr (fuel : Nat) (json : List Char) (i : Nat) :
    Except SyntaxErr (Value × Nat) := (jsonP fuel).arr json i

/-- The `while True` element loop of `parse_json_arr`
(json_lib.py lines 108-119), at recursion depth `fuel`. -/
def parse_json_arr_loop (fuel : Nat) (json : List Char) (i : Nat)
    (arr : List Value) : Except SyntaxErr (Value × Nat) :=
  (jsonP fuel).arrLoop json i arr

/-- Embedding of `parse_json` (json_lib.py lines 18-36); the fuel exceeds any
recursion depth reachable on the given input. -/
def parse_json (json : List Char) : Except SyntaxErr Value :=
  match parse_json_base (2 * json.length + 2) json 0 with
  | .error e => .error e
  | .ok (parsed, i0) =>
    let i := skip_whitespace json i0
    if i < json.length then .error ⟨"Expected end of input", i⟩
    else .ok parsed

/-- Companion to `parse_json_obj_loop` recording the key/value pairs in the
order they occur in the text instead of folding them into the dict; it is the
observation the duplicate-key claim is stated against. -/
def parse_json_pairs_loop :
    Nat → List Char → Nat → Except SyntaxErr (List (List Char × Value) × Nat)
  | 0, _, i => .error ⟨"out of fuel", i⟩
  | fuel + 1, json, i0 =>
    match parse_json_str json i0 with
    | .error e => .error e
    | .ok (key, i1) =>
      let i2 := skip_whitespace json i1
      match json.get? i2 with
      | none => .error (eofErr json)
      | some c =>
        if c ≠ ':' then .error ⟨"Unexpected character, expected a colon", i2⟩
        else
          match parse_json_base fuel json (skip_whitespace json (i2 + 1)) with
          | .error e => .error e
          | .ok (val, i3) =>
            let i4 := skip_whitespace json i3
            match json.get? i4 with
            | none => .error (eofErr json)
            | some c2 =>
              if c2 = '\x7d' then .ok ([(key, val)], i4 + 1)
              else if c2 ≠ ',' then
                .error ⟨"Unexpected character, expected a comma or a closing brace", i4⟩
              else
                match parse_json_pairs_loop fuel json (skip_whitespace json (i4 + 1)) with
                | .error e => .error e
                | .ok (rest, j) => .ok ((key, val) :: rest, j)

/-- Companion to `parse_json_obj` returning the textual pair sequence. -/
def parse_json_obj_pairs :
    Nat → List Char → Nat → Except SyntaxErr (List (List Char × Value) × Nat)
  | 0, _, i => .error ⟨"out of fuel", i⟩
  | fuel + 1, json, i0 =>
    if json.get? i0 ≠ some '\x7b' then
      .error ⟨"Unexpected character, expected an opening brace", i0⟩
    else
      let i := skip_whitespace json (i0 + 1)
      match json.get? i with
      | none => .error (eofErr json)
      | some c =>
        if c = '\x7d' then .ok ([], i + 1)
        else parse_json_pairs_loop fuel json i

/- ## JSON serializer (src/json_lib.py, lines 249-328) -/

/-- Python `s.endswith(t)`. -/
def endswith (l s : List Char) : Bool := startswith l.reverse s.reverse

/-- Embedding of `increase_indent` (json_lib.py lines 249-251): insert the
`spaces` string after each newline. -/
def increase_indent (text spaces : List Char) : List Char :=
  concatMap (fun c => if c = '\n' then '\n' :: spaces else [c]) text

/-- Python `s.replace(pat, rep)` for a single-character pattern. -/
def repl1 (pat : Char) (rep : List Char) (l : List Char) : List Char :=
  concatMap (fun c => if c = pat then rep else [c]) l

/-- Lowercase hexadecimal digit, as produced by Python `hex`. -/
def hexDigitChar (n : Nat) : Char :=
  if n < 10 then Char.ofNat (n + 48) else Char.ofNat (n + 87)

/-- Python `hex(n)[2:].rjust(4, zero-digit)` for `n < 0x10000`
(json_lib.py line 262). -/
def hex4 (n : Nat) : List Char :=
  [hexDigitChar (n / 4096 % 16), hexDigitChar (n / 256 % 16),
   hexDigitChar (n / 16 % 16), hexDigitChar (n % 16)]

/-- Embedding of `escape_str_for_json` (json_lib.py lines 253-265): the chain
of single-character replacements, then the control/surrogate `u`-escape pass,
then the wrapping quotes. -/
def escape_str_for_json (s : List Char) : List Char :=
  let s1 := repl1 '\\' ['\\', '\\'] s
  let s2 := repl1 '"' ['\\', '"'] s1
  let s3 := repl1 '\n' ['\\', 'n'] s2
  let s4 := repl1 '\r' ['\\', 'r'] s3
  let s5 := repl1 '\x08' ['\\', 'b'] s4
  let s6 := repl1 '\t' ['\\', 't'] s5
  let s7 := repl1 '\x0c' ['\\', 'f'] s6
  let body := concatMap (fun c =>
    let n := c.toNat
    if n ≤ 0x1f ∨ (0xd800 ≤ n ∧ n ≤ 0xdfff) then '\\' :: 'u' :: hex4 n else [c]) s7
  '"' :: (body ++ ['"'])

mutual

/-- The Python values accepted by `to_json` (json_lib.py line 267): `None`,
`bool`, `int`, `str`, `list`, `dict`.  `float` inputs are left out of the
model: their serialization goes through the binary64 shortest-representation
`str`, which is outside this embedding; no claim settled here needs them.
The list and dict payloads are spelled out as their own inductives so that
the serializer recursion is structural. -/
inductive PyVal where
  | none
  | bool (b : Bool)
  | int (n : Int)
  | str (s : List Char)
  | list (l : PyList)
  | dict (d : PyDict)

/-- A list of `PyVal`. -/
inductive PyList where
  | nil
  | cons (v : PyVal) (rest : PyList)

/-- An ordered string-keyed dict of `PyVal`. -/
inductive PyDict where
  | nil
  | cons (k : List Char) (v : PyVal) (rest : PyDict)

end

mutual

/-- Embedding of `to_json` (json_lib.py lines 267-328) for a fixed spacing
option (`None` or a literal string; the `isinstance(spaces, int)`
normalization of line 273 is `to_json_indent`).  For `int` data the value is
`str(n)` followed by the — for integers vacuous — trailing `.0` strip of
line 282; the non-finite check of lines 279-280 cannot fire on integers. -/
def to_json : PyVal → Option (List Char) → List Char
  | PyVal.none, _ => ("null".toList)
  | PyVal.str s, _ => escape_str_for_json s
  | PyVal.bool b, _ => if b then ("true".toList) else ("false".toList)
  | PyVal.int n, _ =>
    let num := (toString n).toList
    if endswith num ['.', '0'] then num.take (num.length - 2) else num
  | PyVal.dict PyDict.nil, _ => ['\x7b', '\x7d']
  | PyVal.dict (PyDict.cons k v rest), spaces =>
    '\x7b' :: (joinWith [','] (to_json_dict (PyDict.cons k v rest) spaces) ++
      (match spaces with | some _ => ['\n'] | none => []) ++ ['\x7d'])
  | PyVal.list PyList.nil, _ => ['[', ']']
  | PyVal.list (PyList.cons v rest), spaces =>
    '[' :: (joinWith [','] (to_json_list (PyList.cons v rest) spaces) ++
      (match spaces with | some _ => ['\n'] | none => []) ++ [']'])

/-- Per-entry pieces of the dict branch of `to_json` (json_lib.py lines
287-302): the comma separation between pieces is the `joinWith` above. -/
def to_json_dict : PyDict → Option (List Char) → List (List Char)
  | PyDict.nil, _ => []
  | PyDict.cons k v rest, spaces =>
    ((match spaces with | some sp => '\n' :: sp | none => []) ++
     escape_str_for_json k ++ [':'] ++
     (match spaces with | some _ => [' '] | none => []) ++
     (match spaces with
      | some sp => increase_indent (to_json v spaces) sp
      | none => to_json v spaces)) :: to_json_dict rest spaces

/-- Per-element pieces of the list branch of `to_json` (json_lib.py lines
310-321). -/
def to_json_list : PyList → Option (List Char) → List (List Char)
  | PyList.nil, _ => []
  | PyList.cons v rest, spaces =>
    ((match spaces with | some sp => '\n' :: sp | none => []) ++
     (match spaces with
      | some sp => increase_indent (to_json v spaces) sp
      | none => to_json v spaces)) :: to_json_list rest spaces

end

/-- The `isinstance(spaces, int)` normalization of `to_json`
(json_lib.py line 273): an integer indent is that many spaces. -/
def to_json_indent (data : PyVal) (n : Nat) : List Char :=
  to_json data (some (List.replicate n ' '))

/- ## Specification-side definitions

The following definitions transcribe the claims' wording (not the source);
the theorems below compare the source embeddings against them. -/

/-- From the spec (position resolver): the index of the last newline character
strictly before `index`, if any. -/
def lastNewlineBefore (text : List Char) (index : Nat) : Option Nat :=
  (((text.take index).enum).filter (fun p => p.2 = '\n')).getLast?.map Prod.fst

/-- Proof-side companion of `lastNewlineBefore`: a right-to-left scan carrying
the absolute position of the head. -/
def lastNlAux : List Char → Nat → Option Nat
  | [], _ => none
  | c :: rest, p =>
    match lastNlAux rest (p + 1) with
    | some j => some j
    | none => if c = '\n' then some p else none

/-- From the spec (number grammar): the exponent tail, an optional sign then
at least one digit, consuming the rest of the token. -/
def grammar_exp_tail (r : List Char) : Bool :=
  let r2 := if r.head? = some '+' ∨ r.head? = some '-' then r.tail else r
  ¬r2.isEmpty ∧ r2.all isDigit

/-- From the spec (number grammar): after the integer and optional fraction
part, the token either ends or carries an exponent marker with a valid tail. -/
def grammar_after_num (r : List Char) : Bool :=
  match r with
  | [] => true
  | c :: r2 => if c = 'e' ∨ c = 'E' then grammar_exp_tail r2 else false

/-- From the spec (number grammar), the sign-independent part: a non-empty
all-digit integer part with no leading zero immediately followed by another
digit; an optional dot immediately followed by at least one digit; an optional
exponent; and nothing else in the token. -/
def grammar_num_core (t1 : List Char) : Bool :=
  let ds := t1.takeWhile isDigit
  let r1 := t1.drop ds.length
  if ds.isEmpty then false
  else if ds.head? = some '0' ∧ 2 ≤ ds.length then false
  else
    match r1 with
    | [] => grammar_after_num []
    | c :: r =>
      if c = '.' then
        (if (r.takeWhile isDigit).isEmpty then false
         else grammar_after_num (r.drop (r.takeWhile isDigit).length))
      else grammar_after_num (c :: r)

/-- From the spec (number grammar): an optional leading minus followed by a
token matching the sign-independent grammar. -/
def grammar_number (t : List Char) : Bool :=
  grammar_num_core (if t.head? = some '-' then t.tail else t)

/-- Proof-side canonical form of the claimed number grammar: an optional
fraction part, a dot followed by at least one digit. -/
def FracShape (fsPart : List Char) : Prop :=
  fsPart = [] ∨ ∃ fs, fsPart = '.' :: fs ∧ fs ≠ [] ∧ ∀ c ∈ fs, isDigit c = true

/-- Proof-side canonical form of the claimed number grammar: an optional
exponent part, a marker followed by an optional sign and at least one digit. -/
def ExpShape (expPart : List Char) : Prop :=
  expPart = [] ∨
    ∃ e sgn digs, (e = 'e' ∨ e = 'E') ∧ (sgn = [] ∨ sgn = ['+'] ∨ sgn = ['-']) ∧
      digs ≠ [] ∧ (∀ c ∈ digs, isDigit c = true) ∧ expPart = e :: (sgn ++ digs)

/-- Proof-side canonical form of the claimed number grammar, sign stripped:
a non-empty digit run without a forbidden leading zero, then an optional
fraction, then an optional exponent. -/
def NumShape (num : List Char) : Prop :=
  ∃ ds fsPart expPart,
    num = ds ++ (fsPart ++ expPart) ∧ ds ≠ [] ∧ (∀ c ∈ ds, isDigit c = true) ∧
    ¬(ds.head? = some '0' ∧ 2 ≤ ds.length) ∧ FracShape fsPart ∧ ExpShape expPart

/-- From the spec (duplicate-key policy): the keys in the order they first
appeared, scanning left to right past the already-seen keys. -/
def firstKeysAux : List (List Char) → List (List Char) → List (List Char)
  | _, [] => []
  | seen, k :: rest =>
    if k ∈ seen then firstKeysAux seen rest else k :: firstKeysAux (seen ++ [k]) rest

/-- From the spec: the order in which keys first appeared. -/
def firstKeys (ks : List (List Char)) : List (List Char) := firstKeysAux [] ks

/-- From the spec (duplicate-key policy): the value carried by the last
occurrence of a key in the textual pair sequence. -/
def last_value (k : List Char) : List (List Char × Value) → Option Value
  | [] => none
  | (k1, v) :: rest =>
    match last_value k rest with
    | some w => some w
    | none => if k1 = k then some v else none

/-- First-match association lookup, the observation of a parsed `Object`. -/
def dictLookup (k : List Char) : List (List Char × Value) → Option Value
  | [] => none
  | (k1, v) :: rest => if k1 = k then some v else dictLookup k rest

/- ## Lemmas and claims -/

lemma parse_json_base_succ (fuel : Nat) (json : List Char) (i0 : Nat) :
    parse_json_base (fuel + 1) json i0 =
      match json.get? (skip_whitespace json i0) with
      | none => .error (eofErr json)
      | some c =>
        if c = '\x7b' then parse_json_obj fuel json (skip_whitespace json i0)
        else if c = '[' then parse_json_arr fuel json (skip_whitespace json i0)
        else if c = '"' then
          match parse_json_str json (skip_whitespace json i0) with
          | .error e => .error e
          | .ok (s, j) => .ok (.str s, j)
        else if c = 'n' then parse_json_null json (skip_whitespace json i0)
        else if c = 't' ∨ c = 'f' then parse_json_boolean json (skip_whitespace json i0)
        else if c ∈ JSON_NUM_START_CHARS then
          match parse_json_number json (skip_whitespace json i0) with
          | .error e => .error e
          | .ok (q, j) => .ok (.num q, j)
        else .error ⟨"Unexpected character", skip_whitespace json i0⟩ := rfl

lemma parse_json_obj_succ (fuel : Nat) (json : List Char) (i0 : Nat) :
    parse_json_obj (fuel + 1) json i0 =
      if json.get? i0 ≠ some '\x7b' then
        .error ⟨"Unexpected character, expected an opening brace", i0⟩
      else
        match json.get? (skip_whitespace json (i0 + 1)) with
        | none => .error (eofErr json)
        | some c =>
          if c = '\x7d' then .ok (.obj [], skip_whitespace json (i0 + 1) + 1)
          else parse_json_obj_loop fuel json (skip_whitespace json (i0 + 1)) [] := rfl

lemma parse_json_obj_loop_succ (fuel : Nat) (json : List Char) (i0 : Nat)
    (obj : List (List Char × Value)) :
    parse_json_obj_loop (fuel + 1) json i0 obj =
      match parse_json_str json i0 with
      | .error e => .error e
      | .ok (key, i1) =>
        match json.get? (skip_whitespace json i1) with
        | none => .error (eofErr json)
        | some c =>
          if c ≠ ':' then
            .error ⟨"Unexpected character, expected a colon", skip_whitespace json i1⟩
          else
            match parse_json_base fuel json
                (skip_whitespace json (skip_whitespace json i1 + 1)) with
            | .error e => .error e
            | .ok (val, i3) =>
              match json.get? (skip_whitespace json i3) with
              | none => .error (eofErr json)
              | some c2 =>
                if c2 = '\x7d' then
                  .ok (.obj (dictInsert obj key val), skip_whitespace json i3 + 1)
                else if c2 ≠ ',' then
                  .error ⟨"Unexpected character, expected a comma or a closing brace",
                          skip_whitespace json i3⟩
                else
                  parse_json_obj_loop fuel json
                    (skip_whitespace json (skip_whitespace json i3 + 1))
                    (dictInsert obj key val) := rfl

lemma escq_length_le (cell : List Char) : cell.length ≤ (escq cell).length := by
  induction cell with
  | nil => simp [escq, concatMap]
  | cons c l ih =>
    by_cases hc : c = '"' <;> simp [escq, concatMap, hc] at ih ⊢ <;> omega

/-- Claim C3 (amended): for every cell and every delimiter choice, the
serialized cell is wrapped in the literal double-quote character with internal
double quotes doubled when the cell contains `quote_char`, `comma_char` or
`new_line_char` (and the wrapping genuinely modifies the cell), and is emitted
unmodified otherwise. -/
theorem claim_C3 (cell : List Char) (qc cc nl : Char) :
    (¬(qc ∈ cell ∨ cc ∈ cell ∨ nl ∈ cell) → str_to_csv cell qc cc nl = cell) ∧
    ((qc ∈ cell ∨ cc ∈ cell ∨ nl ∈ cell) →
      str_to_csv cell qc cc nl = '"' :: (escq cell ++ ['"']) ∧
      str_to_csv cell qc cc nl ≠ cell) := by
  refine ⟨fun h => by simp [str_to_csv, h], fun h => ⟨by simp [str_to_csv, h], ?_⟩⟩
  simp only [str_to_csv, if_pos h]
  intro heq
  have hlen := congrArg List.length heq
  have hle := escq_length_le cell
  simp at hlen
  omega

theorem claim_C3_witness :
    str_to_csv ("ab".toList) '"' ',' '\n' = ("ab".toList) ∧
    str_to_csv ("a,b".toList) '"' ',' '\n' = '"' :: (escq ("a,b".toList) ++ ['"']) :=
  ⟨(claim_C3 ("ab".toList) '"' ',' '\n').1 (by decide),
   ((claim_C3 ("a,b".toList) '"' ',' '\n').2 (by decide)).1⟩

/-- Claim C3, counterexample to the claim as stated: with `quote_char = Q` the
cell `aQb` contains the quote character, but the source wraps it in the
literal double-quote character, not in `Q` with internal `Q`s doubled. -/
theorem claim_C3_counterexample :
    str_to_csv ("aQb".toList) 'Q' ',' '\n' = ("\"aQb\"".toList) ∧
    ("\"aQb\"".toList) ≠ ('Q' :: (("aQQb".toList) ++ ['Q'])) := by
  constructor
  · decide
  · decide

/-- Claim C7: serializing the object with key `a` mapped to `1` and key `b`
mapped to the array `[1, 2]`, with an indent of two spaces, produces exactly
the pretty-printed text of the claim. -/
theorem claim_C7 :
    to_json_indent
      (PyVal.dict (PyDict.cons ("a".toList) (PyVal.int 1)
        (PyDict.cons ("b".toList)
          (PyVal.list (PyList.cons (PyVal.int 1) (PyList.cons (PyVal.int 2) PyList.nil)))
          PyDict.nil))) 2
      = ("\x7b\n  \"a\": 1,\n  \"b\": [\n    1,\n    2\n  ]\n\x7d".toList) := by
  decide

lemma glc_go_eq (l : List Char) : ∀ (p lc lli : Nat),
    glc_go l p lc lli = (lc + l.count '\n', (lastNlAux l p).getD lli) := by
  induction l with
  | nil => intro p lc lli; simp [glc_go, lastNlAux]
  | cons c rest ih =>
    intro p lc lli
    by_cases hc : c = '\n'
    · subst hc
      simp only [glc_go, if_pos rfl, ih, lastNlAux]
      cases h2 : lastNlAux rest (p + 1) <;>
        simp [List.count_cons, h2] <;> omega
    · simp only [glc_go, if_neg hc, ih, lastNlAux]
      cases h2 : lastNlAux rest (p + 1) <;>
        simp [List.count_cons, h2, hc]

lemma lastNlAux_eq_spec (l : List Char) : ∀ (p : Nat),
    lastNlAux l p =
      ((List.enumFrom p l).filter (fun q => q.2 = '\n')).getLast?.map Prod.fst := by
  induction l with
  | nil => intro p; simp [lastNlAux]
  | cons c rest ih =>
    intro p
    rw [List.enumFrom_cons]
    by_cases hc : c = '\n'
    · have hcons : ((p, c) :: List.enumFrom (p + 1) rest).filter (fun q => q.2 = '\n')
          = (p, c) :: (List.enumFrom (p + 1) rest).filter (fun q => q.2 = '\n') := by
        simp [List.filter_cons, hc]
      rw [hcons]
      have hsplit : ((p, c) :: (List.enumFrom (p + 1) rest).filter (fun q => q.2 = '\n')).getLast?
          = ((List.enumFrom (p + 1) rest).filter (fun q => q.2 = '\n')).getLast?.or (some (p, c)) := by
        have : (p, c) :: (List.enumFrom (p + 1) rest).filter (fun q => q.2 = '\n')
            = [(p, c)] ++ (List.enumFrom (p + 1) rest).filter (fun q => q.2 = '\n') := rfl
        rw [this, List.getLast?_append]
        rfl
      rw [hsplit]
      simp only [lastNlAux, ih]
      cases h2 : ((List.enumFrom (p + 1) rest).filter (fun q => q.2 = '\n')).getLast? <;>
        simp [h2, hc]
    · have hcons : ((p, c) :: List.enumFrom (p + 1) rest).filter (fun q => q.2 = '\n')
          = (List.enumFrom (p + 1) rest).filter (fun q => q.2 = '\n') := by
        simp [List.filter_cons, hc]
      rw [hcons]
      simp only [lastNlAux, ih]
      cases h2 : ((List.enumFrom (p + 1) rest).filter (fun q => q.2 = '\n')).getLast? <;>
        simp [h2, hc]

/-- Claim C8: for every text and every offset into it, the position resolver
returns the count of newline characters strictly before the offset, and the
offset minus the index of the last newline before it (the offset itself when
no newline precedes it). -/
theorem claim_C8 (text : List Char) (index : Nat) (h : index ≤ text.length) :
    get_line_and_col text index =
      ((text.take index).count '\n',
        match lastNewlineBefore text index with
        | some j => index - j
        | none => index) := by
  unfold get_line_and_col
  rw [glc_go_eq]
  have hspec : lastNlAux (text.take index) 0 = lastNewlineBefore text index := by
    rw [lastNlAux_eq_spec, lastNewlineBefore, List.enum]
  rw [hspec]
  cases h2 : lastNewlineBefore text index <;> simp [h2]

theorem claim_C8_witness :
    get_line_and_col ("ab\ncd".toList) 4 =
      ((("ab\ncd".toList).take 4).count '\n',
        match lastNewlineBefore ("ab\ncd".toList) 4 with
        | some j => 4 - j
        | none => 4) :=
  claim_C8 ("ab\ncd".toList) 4 (by decide)

lemma parse_csv_step_ok (csv : List Char) (qc cc nl : Char) (i : Nat) (c : Char)
    (st st' : CsvSt) (h : parse_csv_step csv qc cc nl i c st = .ok st') :
    (st'.lines = st.lines ∨ ∃ cell, st'.lines = st.lines ++ [st.currentRow ++ [cell]]) ∧
    (st'.outOfCell = true → st'.cellIsQuoted = false) := by
  unfold parse_csv_step at h
  by_cases ho : st.outOfCell = true <;>
    simp only [ho, if_true, if_false, Bool.false_eq_true] at h <;>
    (repeat' split at h) <;>
    (cases h) <;>
    first
      | exact ⟨Or.inl rfl, by simp⟩
      | exact ⟨Or.inr ⟨_, rfl⟩, by simp⟩
      | exact ⟨Or.inl rfl, by simp_all⟩
      | exact ⟨Or.inr ⟨_, rfl⟩, by simp_all⟩

lemma parse_csv_go_inv (csv : List Char) (qc cc nl : Char) :
    ∀ (l : List Char) (i : Nat) (st st' : CsvSt),
      parse_csv_go csv qc cc nl l i st = .ok st' →
      ((∀ row ∈ st.lines, row ≠ []) → (∀ row ∈ st'.lines, row ≠ [])) ∧
      ((st.outOfCell = true → st.cellIsQuoted = false) →
        (st'.outOfCell = true → st'.cellIsQuoted = false)) := by
  intro l
  induction l with
  | nil =>
    intro i st st' h
    unfold parse_csv_go at h
    injection h with h
    subst h
    exact ⟨fun a => a, fun a => a⟩
  | cons c rest ih =>
    intro i st st' h
    unfold parse_csv_go at h
    cases hs : parse_csv_step csv qc cc nl i c st with
    | error e => rw [hs] at h; simp at h
    | ok st2 =>
      rw [hs] at h
      have hstep := parse_csv_step_ok csv qc cc nl i c st st2 hs
      have hrest := ih (i + 1) st2 st' h
      refine ⟨fun h1 => hrest.1 ?_, fun h2 => hrest.2 (hstep.2)⟩
      rcases hstep.1 with heq | ⟨cell, heq⟩
      · rw [heq]; exact h1
      · rw [heq]
        intro row hrow
        rcases List.mem_append.mp hrow with hm | hm
        · exact h1 row hm
        · rw [List.mem_singleton.mp hm]; simp

lemma csvFinish_rows (lines : List (List (List Char))) (row : List (List Char))
    (h1 : ∀ r ∈ lines, r ≠ []) : ∀ r ∈ csvFinish lines row, r ≠ [] := by
  unfold csvFinish
  split
  · intro r hr
    rcases List.mem_append.mp hr with hm | hm
    · exact h1 r hm
    · rw [List.mem_singleton.mp hm]
      intro hcon
      simp_all
  · exact h1

lemma csv_epilogue_rows (csv : List Char) (cc : Char) (st : CsvSt)
    (t : List (List (List Char))) (h : csv_epilogue csv cc st = .ok t)
    (h1 : ∀ row ∈ st.lines, row ≠ []) : ∀ row ∈ t, row ≠ [] := by
  unfold csv_epilogue at h
  (repeat' split at h) <;> (cases h) <;> exact csvFinish_rows _ _ h1

/-- Claim C9: every row of every table returned by the CSV parser has at
least one cell; the empty input parses to the empty table; an input ending in
the row separator produces no empty trailing row. -/
theorem claim_C9 :
    (∀ (csv : List Char) (qc cc nl : Char) (t : List (List (List Char))),
        parse_csv csv qc cc nl = .ok t → ∀ row ∈ t, row ≠ []) ∧
    parse_csv [] '"' ',' '\n' = .ok [] ∧
    parse_csv ("a\n".toList) '"' ',' '\n' = .ok [[['a']]] := by
  refine ⟨?_, by decide, by decide⟩
  intro csv qc cc nl t h
  unfold parse_csv at h
  cases hg : parse_csv_go csv qc cc nl csv 0 csvInit with
  | error e => rw [hg] at h; simp at h
  | ok st =>
    rw [hg] at h
    have hrows := (parse_csv_go_inv csv qc cc nl csv 0 csvInit st hg).1 (by simp [csvInit])
    exact csv_epilogue_rows csv cc st t h hrows

theorem claim_C9_witness : ∀ row ∈ ([[['x']]] : List (List (List Char))), row ≠ [] :=
  claim_C9.1 ("x".toList) '"' ',' '\n' [[['x']]] (by decide)

/-- Claim C6: when the scan ends inside a quoted cell with no closing quote
reached, the parse fails with the end-of-input error at the input's length;
when it ends inside an unquoted cell the cell is implicitly closed with its
accumulated content (the final row carries it as last cell); and when the
input ends exactly on a trailing field separator one trailing empty cell is
appended to the final row. -/
theorem claim_C6 (csv : List Char) (qc cc nl : Char) (st : CsvSt)
    (h : parse_csv_go csv qc cc nl csv 0 csvInit = .ok st) :
    (st.cellIsQuoted = true → st.lastWasQuote = false →
      parse_csv csv qc cc nl =
        .error ⟨"Unexpected end of input in CSV, expected quote", csv.length⟩) ∧
    (st.cellIsQuoted = false → st.outOfCell = false →
      ∃ t, parse_csv csv qc cc nl = .ok t ∧
        t.getLast? = some (st.currentRow ++ [csv.drop st.cellStartInd])) ∧
    (st.outOfCell = true → csv.getLast? = some cc →
      ∃ t, parse_csv csv qc cc nl = .ok t ∧
        t.getLast? = some (st.currentRow ++ [[]])) := by
  have hpc : parse_csv csv qc cc nl = csv_epilogue csv cc st := by
    unfold parse_csv
    rw [h]
  have houtq : st.outOfCell = true → st.cellIsQuoted = false :=
    (parse_csv_go_inv csv qc cc nl csv 0 csvInit st h).2 (by simp [csvInit])
  refine ⟨fun hq hl => ?_, fun hq hoc => ?_, fun hoc hlast => ?_⟩
  · rw [hpc]
    unfold csv_epilogue
    rw [hq, hl]
    simp
  · rw [hpc]
    unfold csv_epilogue
    rw [hq, hoc]
    simp only [Bool.false_eq_true, if_false, Bool.not_false, if_true]
    refine ⟨_, rfl, ?_⟩
    unfold csvFinish
    rw [if_pos (by simp)]
    exact List.getLast?_concat _
  · have hq := houtq hoc
    rw [hpc]
    unfold csv_epilogue
    rw [hq, hoc, hlast]
    simp only [Bool.false_eq_true, if_false, Bool.not_true, if_true, if_pos rfl]
    refine ⟨_, rfl, ?_⟩
    unfold csvFinish
    rw [if_pos (by simp)]
    exact List.getLast?_concat _

theorem claim_C6_witness :
    (parse_csv ("\"a".toList) '"' ',' '\n' =
      .error ⟨"Unexpected end of input in CSV, expected quote", ("\"a".toList).length⟩) ∧
    (∃ t, parse_csv ("ab".toList) '"' ',' '\n' = .ok t ∧
      t.getLast? = some (([] : List (List Char)) ++ [("ab".toList).drop 0])) ∧
    (∃ t, parse_csv ("a,".toList) '"' ',' '\n' = .ok t ∧
      t.getLast? = some (([['a']] : List (List Char)) ++ [[]])) :=
  ⟨(claim_C6 ("\"a".toList) '"' ',' '\n' ⟨[], [], false, 0, true, false⟩ (by decide)).1 rfl rfl,
   (claim_C6 ("ab".toList) '"' ',' '\n' ⟨[], [], false, 0, false, false⟩ (by decide)).2.1 rfl rfl,
   (claim_C6 ("a,".toList) '"' ',' '\n' ⟨[], [['a']], true, 0, false, false⟩ (by decide)).2.2 rfl rfl⟩

lemma takeWhile_all {p : Char → Bool} : ∀ {l : List Char}, (∀ c ∈ l, p c = true) →
    l.takeWhile p = l := fun h => List.takeWhile_eq_self_iff.mpr h

lemma skip_whitespace_all (json : List Char) (h : ∀ c ∈ json, c ∈ JSON_WHITESPACE) :
    skip_whitespace json 0 = json.length := by
  unfold skip_whitespace
  rw [List.drop_zero, takeWhile_all (by intro c hc; simpa using h c hc)]
  simp

/-- Claim C10: parsing the empty input, or any input made only of whitespace
characters, fails with the unexpected-end-of-file error positioned at the
input's length. -/
theorem claim_C10 (json : List Char) (h : ∀ c ∈ json, c ∈ JSON_WHITESPACE) :
    parse_json json = .error ⟨"Unexpected end of file", json.length⟩ := by
  have hbase : parse_json_base (2 * json.length + 1 + 1) json 0 =
      .error ⟨"Unexpected end of file", json.length⟩ := by
    rw [parse_json_base_succ]
    simp only [skip_whitespace_all json h, List.get?_eq_none.mpr (le_refl json.length)]
    rfl
  unfold parse_json
  have h2 : 2 * json.length + 2 = 2 * json.length + 1 + 1 := rfl
  rw [h2, hbase]

theorem claim_C10_witness :
    parse_json (" \t\r\n".toList) =
      .error ⟨"Unexpected end of file", (" \t\r\n".toList).length⟩ :=
  claim_C10 (" \t\r\n".toList) (by decide)

lemma dictInsert_keys_mem (l : List (List Char × Value)) (k : List Char) (v : Value)
    (hk : k ∈ l.map Prod.fst) : (dictInsert l k v).map Prod.fst = l.map Prod.fst := by
  induction l with
  | nil => exact absurd hk (List.not_mem_nil k)
  | cons kv rest ih =>
    obtain ⟨k1, v1⟩ := kv
    by_cases h1 : k1 = k
    · simp [dictInsert, h1]
    · have hmem : k ∈ rest.map Prod.fst := by
        rcases List.mem_cons.mp hk with hc | hc
        · exact absurd hc.symm h1
        · exact hc
      simp [dictInsert, h1, ih hmem]

lemma dictInsert_keys_new (l : List (List Char × Value)) (k : List Char) (v : Value)
    (hk : k ∉ l.map Prod.fst) :
    (dictInsert l k v).map Prod.fst = l.map Prod.fst ++ [k] := by
  induction l with
  | nil => simp [dictInsert]
  | cons kv rest ih =>
    obtain ⟨k1, v1⟩ := kv
    rw [List.map_cons] at hk
    have h1 : k1 ≠ k := by
      intro hc
      subst hc
      exact hk (List.mem_cons_self k1 (rest.map Prod.fst))
    have h2 : k ∉ rest.map Prod.fst := fun hc => hk (List.mem_cons_of_mem k1 hc)
    simp [dictInsert, h1, ih h2]

lemma dictLookup_dictInsert (l : List (List Char × Value)) (k k2 : List Char) (v : Value) :
    dictLookup k2 (dictInsert l k v) = if k2 = k then some v else dictLookup k2 l := by
  induction l with
  | nil =>
    by_cases h : k = k2
    · subst h; simp [dictInsert, dictLookup]
    · simp [dictInsert, dictLookup, h, Ne.symm h]
  | cons kv rest ih =>
    obtain ⟨k1, v1⟩ := kv
    by_cases h1 : k1 = k
    · subst h1
      by_cases h : k1 = k2
      · subst h; simp [dictInsert, dictLookup]
      · simp [dictInsert, dictLookup, h, Ne.symm h]
    · by_cases h : k1 = k2
      · subst h
        simp [dictInsert, dictLookup, h1, Ne.symm h1]
      · simp [dictInsert, dictLookup, h1, h, ih]

lemma foldIns_keys (ps : List (List Char × Value)) :
    ∀ (acc : List (List Char × Value)),
      (ps.foldl (fun o kv => dictInsert o kv.1 kv.2) acc).map Prod.fst =
        acc.map Prod.fst ++ firstKeysAux (acc.map Prod.fst) (ps.map Prod.fst) := by
  induction ps with
  | nil => intro acc; simp [firstKeysAux]
  | cons kv rest ih =>
    intro acc
    obtain ⟨k, v⟩ := kv
    simp only [List.foldl_cons, List.map_cons]
    rw [ih]
    by_cases hk : k ∈ acc.map Prod.fst
    · rw [dictInsert_keys_mem _ _ _ hk]
      simp [firstKeysAux, hk]
    · rw [dictInsert_keys_new _ _ _ hk]
      simp only [firstKeysAux, hk, if_neg, List.append_assoc, List.cons_append,
        List.nil_append, if_false]

lemma foldIns_lookup (ps : List (List Char × Value)) :
    ∀ (acc : List (List Char × Value)) (k : List Char),
      dictLookup k (ps.foldl (fun o kv => dictInsert o kv.1 kv.2) acc) =
        match last_value k ps with
        | some v => some v
        | none => dictLookup k acc := by
  induction ps with
  | nil => intro acc k; simp [last_value]
  | cons kv rest ih =>
    intro acc k
    obtain ⟨k1, v1⟩ := kv
    simp only [List.foldl_cons]
    rw [ih]
    cases hlv : last_value k rest with
    | some w => simp [last_value, hlv]
    | none =>
      simp only [last_value, hlv, dictLookup_dictInsert]
      by_cases h1 : k1 = k
      · subst h1; simp
      · simp [h1, Ne.symm h1]

lemma obj_loop_eq_pairs_loop (json : List Char) :
    ∀ (fuel i : Nat) (obj : List (List Char × Value)),
      parse_json_obj_loop fuel json i obj =
        Except.map
          (fun x => (Value.obj (x.1.foldl (fun o kv => dictInsert o kv.1 kv.2) obj), x.2))
          (parse_json_pairs_loop fuel json i) := by
  intro fuel
  induction fuel with
  | zero => intro i obj; rfl
  | succ fuel ih =>
    intro i obj
    rw [parse_json_obj_loop_succ]
    unfold parse_json_pairs_loop
    dsimp only
    repeat' split
    all_goals try rfl
    all_goals rw [ih]
    all_goals simp only [*, Except.map]
    all_goals try rfl

lemma obj_eq_pairs (json : List Char) (fuel i : Nat) :
    parse_json_obj fuel json i =
      Except.map
        (fun x => (Value.obj (x.1.foldl (fun o kv => dictInsert o kv.1 kv.2) []), x.2))
        (parse_json_obj_pairs fuel json i) := by
  cases fuel with
  | zero => rfl
  | succ fuel =>
    rw [parse_json_obj_succ]
    unfold parse_json_obj_pairs
    dsimp only
    repeat' split
    all_goals try rfl
    all_goals exact obj_loop_eq_pairs_loop json fuel _ []

/-- Claim C5: a successfully parsed JSON object equals the fold of the
Python-dict insertion over the textual pair sequence; its key order is the
order in which keys first appeared, and each key is associated with the value
of its last occurrence (last value wins at the key's original position). -/
theorem claim_C5 (fuel : Nat) (json : List Char) (i : Nat)
    (obj : List (List Char × Value)) (j : Nat)
    (h : parse_json_obj fuel json i = .ok (Value.obj obj, j)) :
    ∃ ps, parse_json_obj_pairs fuel json i = .ok (ps, j) ∧
      obj = ps.foldl (fun o kv => dictInsert o kv.1 kv.2) [] ∧
      obj.map Prod.fst = firstKeys (ps.map Prod.fst) ∧
      ∀ k, dictLookup k obj = last_value k ps := by
  rw [obj_eq_pairs] at h
  cases hp : parse_json_obj_pairs fuel json i with
  | error e => rw [hp] at h; simp [Except.map] at h
  | ok p =>
    obtain ⟨ps, j2⟩ := p
    rw [hp] at h
    simp only [Except.map] at h
    injection h with h
    injection h with h1 h2
    injection h1 with h1
    subst h2
    refine ⟨ps, rfl, h1.symm, ?_, ?_⟩
    · rw [h1.symm, foldIns_keys, firstKeys]
      rfl
    · intro k
      rw [h1.symm, foldIns_lookup]
      cases hlv : last_value k ps <;> simp [dictLookup]

theorem claim_C5_witness :
    ∃ ps, parse_json_obj_pairs 50 ("\x7b\"a\":1,\"b\":2,\"a\":3\x7d".toList) 0 =
        .ok (ps, 19) ∧
      [(("a".toList), Value.num (decimal_value ['3'])),
       (("b".toList), Value.num (decimal_value ['2']))] =
        ps.foldl (fun o kv => dictInsert o kv.1 kv.2) [] ∧
      ([(("a".toList), Value.num (decimal_value ['3'])),
        (("b".toList), Value.num (decimal_value ['2']))]).map Prod.fst =
        firstKeys (ps.map Prod.fst) ∧
      ∀ k, dictLookup k
          [(("a".toList), Value.num (decimal_value ['3'])),
           (("b".toList), Value.num (decimal_value ['2']))] =
        last_value k ps :=
  claim_C5 50 ("\x7b\"a\":1,\"b\":2,\"a\":3\x7d".toList) 0
    [(("a".toList), Value.num (decimal_value ['3'])),
     (("b".toList), Value.num (decimal_value ['2']))] 19 (by rfl)

lemma startswith_single (l : List Char) (c : Char) :
    startswith l [c] = true ↔ l.head? = some c := by
  cases l with
  | nil => simp [startswith]
  | cons a rest => by_cases h : a = c <;> simp [startswith, h]

lemma takeWhile_append_all {p : Char → Bool} (a b : List Char)
    (h : ∀ c ∈ a, p c = true) : (a ++ b).takeWhile p = a ++ b.takeWhile p := by
  induction a with
  | nil => simp
  | cons c rest ih =>
    have hc : p c = true := h c (by simp)
    simp only [List.cons_append, List.takeWhile_cons, hc, if_true]
    rw [ih (fun d hd => h d (by simp [hd]))]

lemma takeWhile_nil_of_head {p : Char → Bool} (b : List Char)
    (h : ∀ c, b.head? = some c → p c = false) : b.takeWhile p = [] := by
  cases b with
  | nil => rfl
  | cons c rest => simp [List.takeWhile_cons, h c rfl]

lemma takeWhile_drop_id (p : Char → Bool) (l : List Char) :
    l.takeWhile p ++ l.drop (l.takeWhile p).length = l := by
  induction l with
  | nil => rfl
  | cons c rest ih =>
    by_cases hc : p c = true
    · simp [List.takeWhile_cons, hc, ih]
    · simp [List.takeWhile_cons, hc]

lemma head_drop_takeWhile (p : Char → Bool) (l : List Char) (c : Char)
    (h : (l.drop (l.takeWhile p).length).head? = some c) : p c = false := by
  induction l with
  | nil => simp at h
  | cons c0 rest ih =>
    by_cases hc : p c0 = true
    · simp only [List.takeWhile_cons, hc, if_true, List.length_cons,
        List.drop_succ_cons] at h
      exact ih h
    · simp only [List.takeWhile_cons, hc, if_false, List.length_nil,
        List.drop_zero, List.head?_cons] at h
      cases h
      exact Bool.not_eq_true _ ▸ (by simpa using hc)

lemma findIdx_append_none {p : Char → Bool} (a b : List Char)
    (h : ∀ c ∈ a, p c = false) :
    List.findIdx p (a ++ b) = a.length + List.findIdx p b := by
  induction a with
  | nil => simp
  | cons c rest ih =>
    have hc := h c (by simp)
    simp only [List.cons_append, List.findIdx_cons, hc, cond_false,
      ih (fun d hd => h d (by simp [hd])), List.length_cons]
    omega

lemma findIdx_all_none {p : Char → Bool} (l : List Char)
    (h : ∀ c ∈ l, p c = false) : List.findIdx p l = l.length := by
  have h2 := findIdx_append_none l [] h
  simpa using h2

lemma mem_of_getLast?_eq : ∀ (l : List Char) (a : Char), l.getLast? = some a → a ∈ l := by
  intro l
  induction l with
  | nil => intro a h; cases h
  | cons c rest ih =>
    intro a h
    cases rest with
    | nil =>
      simp only [List.getLast?_singleton, Option.some.injEq] at h
      simp [h]
    | cons d rest2 =>
      rw [List.getLast?_cons_cons] at h
      exact List.mem_cons_of_mem c (ih a h)

lemma getLast?_of_ne_nil (l : List Char) (h : l ≠ []) : ∃ a, l.getLast? = some a := by
  cases hg : l.getLast? with
  | none => exact absurd (List.getLast?_eq_none_iff.mp hg) h
  | some a => exact ⟨a, rfl⟩

lemma isDigit_ne_dot {c : Char} (h : isDigit c = true) : ¬(c = '.') := by
  intro hc
  subst hc
  simp [isDigit] at h

lemma isDigit_not_outside {c : Char} (h : isDigit c = true) : ¬(c < '0' ∨ '9' < c) := by
  simp only [isDigit, decide_eq_true_eq] at h
  rintro (h3 | h3)
  · exact absurd h.1 (not_le.mpr h3)
  · exact absurd h.2 (not_le.mpr h3)

lemma isDigit_of_not_outside {c : Char} (h : ¬(c < '0' ∨ '9' < c)) : isDigit c = true := by
  push_neg at h
  simp only [isDigit, decide_eq_true_eq]
  exact ⟨not_lt.mp (by exact fun hlt => absurd hlt (by simpa using h.1)),
         not_lt.mp (by exact fun hlt => absurd hlt (by simpa using h.2))⟩

lemma isE_of_digit {c : Char} (h : isDigit c = true) : isE c = false := by
  cases he : isE c
  · rfl
  · have h2 : c = 'e' ∨ c = 'E' := by simpa [isE, decide_eq_true_eq] using he
    rcases h2 with rfl | rfl <;> simp [isDigit] at h

lemma num_seg_loop_digits (ds : List Char) (h : ∀ c ∈ ds, isDigit c = true) :
    ∀ (rest : List Char) (r : Bool) (i : Nat),
      num_seg_loop (ds ++ rest) r i = num_seg_loop rest r i := by
  induction ds with
  | nil => intro rest r i; rfl
  | cons c ds2 ih =>
    intro rest r i
    have hc := h c (by simp)
    simp only [List.cons_append, num_seg_loop, if_neg (isDigit_ne_dot hc),
      if_neg (isDigit_not_outside hc)]
    exact ih (fun d hd => h d (by simp [hd])) rest r i

lemma num_seg_loop_all_digits (ds : List Char) (h : ∀ c ∈ ds, isDigit c = true)
    (r : Bool) (i : Nat) : num_seg_loop ds r i = .ok () := by
  have h2 := num_seg_loop_digits ds h [] r i
  simpa using h2

lemma num_seg_loop_true_digits : ∀ (l : List Char) (i : Nat) (u : Unit),
    num_seg_loop l true i = .ok u → ∀ c ∈ l, isDigit c = true := by
  intro l
  induction l with
  | nil => intro i u _ c hc; cases hc
  | cons c0 rest ih =>
    intro i u h c hc
    by_cases hdot : c0 = '.'
    · subst hdot
      simp [num_seg_loop] at h
    · by_cases hd : c0 < '0' ∨ '9' < c0
      · simp [num_seg_loop, hdot, hd] at h
      · have hc0 := isDigit_of_not_outside hd
        have hrest : num_seg_loop rest true i = .ok u := by
          simpa [num_seg_loop, hdot, hd] using h
        rcases List.mem_cons.mp hc with rfl | hm
        · exact hc0
        · exact ih i u hrest c hm

lemma num_seg_loop_false_decomp : ∀ (l : List Char) (i : Nat) (u : Unit),
    num_seg_loop l false i = .ok u →
      (∀ c ∈ l, isDigit c = true) ∨
      ∃ ds fs, l = ds ++ '.' :: fs ∧ (∀ c ∈ ds, isDigit c = true) ∧
        (∀ c ∈ fs, isDigit c = true) := by
  intro l
  induction l with
  | nil => intro i u _; left; intro c hc; cases hc
  | cons c0 rest ih =>
    intro i u h
    by_cases hdot : c0 = '.'
    · subst hdot
      have hrest : num_seg_loop rest true (i + 1) = .ok u := by
        simpa [num_seg_loop] using h
      right
      refine ⟨[], rest, by simp, ?_, ?_⟩
      · intro c hc
        cases hc
      · exact num_seg_loop_true_digits rest (i + 1) u hrest
    · by_cases hd : c0 < '0' ∨ '9' < c0
      · simp [num_seg_loop, hdot, hd] at h
      · have hc0 := isDigit_of_not_outside hd
        have hrest : num_seg_loop rest false i = .ok u := by
          simpa [num_seg_loop, hdot, hd] using h
        rcases ih i u hrest with hall | ⟨ds, fs, heq, hds, hfs⟩
        · left
          intro c hc
          rcases List.mem_cons.mp hc with rfl | hm
          · exact hc0
          · exact hall c hm
        · right
          refine ⟨c0 :: ds, fs, by simp [heq], ?_, hfs⟩
          intro c hc
          rcases List.mem_cons.mp hc with rfl | hm
          · exact hc0
          · exact hds c hm

lemma num_exp_loop_digits : ∀ (l : List Char) (i : Nat) (u : Unit),
    num_exp_loop l i = .ok u → ∀ c ∈ l, isDigit c = true := by
  intro l
  induction l with
  | nil => intro i u _ c hc; cases hc
  | cons c0 rest ih =>
    intro i u h c hc
    by_cases hd : c0 < '0' ∨ '9' < c0
    · simp [num_exp_loop, hd] at h
    · have hrest : num_exp_loop rest (i + 1) = .ok u := by
        simpa [num_exp_loop, hd] using h
      rcases List.mem_cons.mp hc with rfl | hm
      · exact isDigit_of_not_outside hd
      · exact ih (i + 1) u hrest c hm

lemma num_exp_loop_all (l : List Char) (h : ∀ c ∈ l, isDigit c = true) :
    ∀ i, num_exp_loop l i = .ok () := by
  induction l with
  | nil => intro i; rfl
  | cons c rest ih =>
    intro i
    simp only [num_exp_loop, if_neg (isDigit_not_outside (h c (by simp)))]
    exact ih (fun d hd => h d (by simp [hd])) (i + 1)

lemma head?_cons_of_eq {l : List Char} {h : Char} (hh : l.head? = some h) :
    l = h :: l.tail := by
  cases l with
  | nil => cases hh
  | cons a r =>
    simp only [List.head?_cons, Option.some.injEq] at hh
    rw [hh]
    rfl

lemma isDigit_ne_sign {c : Char} (h : isDigit c = true) : ¬(c = '+') ∧ ¬(c = '-') := by
  constructor <;> intro hc <;> subst hc <;> simp [isDigit] at h

lemma grammar_after_iff_exp (r : List Char) : grammar_after_num r = true ↔ ExpShape r := by
  cases r with
  | nil =>
    simp only [grammar_after_num, ExpShape]
    simp
  | cons c r2 =>
    simp only [grammar_after_num]
    by_cases he : c = 'e' ∨ c = 'E'
    · rw [if_pos he]
      constructor
      · intro hg
        by_cases hs : r2.head? = some '+' ∨ r2.head? = some '-'
        · simp only [grammar_exp_tail, if_pos hs, decide_eq_true_eq,
            List.all_eq_true, List.isEmpty_iff] at hg
          rcases hs with hs | hs
          · have hr2 : r2 = '+' :: r2.tail := head?_cons_of_eq hs
            refine Or.inr ⟨c, ['+'], r2.tail, he, by simp, hg.1, hg.2, ?_⟩
            rw [hr2]
            rfl
          · have hr2 : r2 = '-' :: r2.tail := head?_cons_of_eq hs
            refine Or.inr ⟨c, ['-'], r2.tail, he, by simp, hg.1, hg.2, ?_⟩
            rw [hr2]
            rfl
        · simp only [grammar_exp_tail, if_neg hs, decide_eq_true_eq,
            List.all_eq_true, List.isEmpty_iff] at hg
          exact Or.inr ⟨c, [], r2, he, Or.inl rfl, hg.1, hg.2, by simp⟩
      · intro hx
        rcases hx with hnil | ⟨e, sgn, digs, hee, hsgn, hdne, hdig, heq⟩
        · simp at hnil
        · injection heq with hce hr2
          rcases hsgn with rfl | rfl | rfl
          · simp only [List.nil_append] at hr2
            subst hr2
            obtain ⟨d, dtl, hdd⟩ : ∃ d dtl, r2 = d :: dtl := by
              cases hcc : r2 with
              | nil => exact absurd hcc hdne
              | cons d dtl => exact ⟨d, dtl, rfl⟩
            subst hdd
            have hd := isDigit_ne_sign (hdig d (by simp))
            have hs : ¬((d :: dtl).head? = some '+' ∨ (d :: dtl).head? = some '-') := by
              simp [hd.1, hd.2]
            simp only [grammar_exp_tail, if_neg hs, decide_eq_true_eq,
              List.all_eq_true, List.isEmpty_iff]
            exact ⟨by simp, hdig⟩
          · simp only [List.cons_append, List.nil_append] at hr2
            subst hr2
            have hs : (('+' :: digs).head? = some '+' ∨ ('+' :: digs).head? = some '-') := by
              simp
            simp only [grammar_exp_tail, if_pos hs, decide_eq_true_eq,
              List.all_eq_true, List.isEmpty_iff, List.tail_cons]
            exact ⟨hdne, hdig⟩
          · simp only [List.cons_append, List.nil_append] at hr2
            subst hr2
            have hs : (('-' :: digs).head? = some '+' ∨ ('-' :: digs).head? = some '-') := by
              simp
            simp only [grammar_exp_tail, if_pos hs, decide_eq_true_eq,
              List.all_eq_true, List.isEmpty_iff, List.tail_cons]
            exact ⟨hdne, hdig⟩
    · rw [if_neg he]
      simp only [Bool.false_eq_true, false_iff]
      intro hx
      rcases hx with hnil | ⟨e, sgn, digs, hee, _, _, _, heq⟩
      · simp at hnil
      · injection heq with hce _
        exact he (by rw [hce]; exact hee)

lemma exp_head_not_digit (expPart : List Char) (hexp : ExpShape expPart) :
    ∀ c, expPart.head? = some c → isDigit c = false := by
  intro c hc
  rcases hexp with rfl | ⟨e, sgn, digs, hee, _, _, _, rfl⟩
  · cases hc
  · simp only [List.head?_cons, Option.some.injEq] at hc
    subst hc
    rcases hee with rfl | rfl <;> decide

lemma frac_exp_head_not_digit (fsPart expPart : List Char) (hfrac : FracShape fsPart)
    (hexp : ExpShape expPart) :
    ∀ c, (fsPart ++ expPart).head? = some c → isDigit c = false := by
  intro c hc
  rcases hfrac with rfl | ⟨fs, rfl, hfne, hfdig⟩
  · rw [List.nil_append] at hc
    exact exp_head_not_digit expPart hexp c hc
  · simp only [List.cons_append, List.head?_cons, Option.some.injEq] at hc
    subst hc
    decide

lemma shape_takeWhile_eq (t1 ds fsPart expPart : List Char)
    (heq : t1 = ds ++ (fsPart ++ expPart)) (hdig : ∀ c ∈ ds, isDigit c = true)
    (hfrac : FracShape fsPart) (hexp : ExpShape expPart) :
    t1.takeWhile isDigit = ds := by
  rw [heq, takeWhile_append_all ds _ hdig,
    takeWhile_nil_of_head _ (frac_exp_head_not_digit fsPart expPart hfrac hexp),
    List.append_nil]

lemma grammar_core_iff_shape (t1 : List Char) :
    grammar_num_core t1 = true ↔ NumShape t1 := by
  constructor
  · intro hg
    unfold grammar_num_core at hg
    dsimp only at hg
    by_cases h1 : (t1.takeWhile isDigit).isEmpty
    · rw [if_pos h1] at hg
      cases hg
    · rw [if_neg h1] at hg
      by_cases h2 : (t1.takeWhile isDigit).head? = some '0' ∧
          2 ≤ (t1.takeWhile isDigit).length
      · rw [if_pos h2] at hg
        cases hg
      · rw [if_neg h2] at hg
        have hne : t1.takeWhile isDigit ≠ [] := by
          intro hh
          exact h1 (by simp [hh])
        have hdig : ∀ c ∈ t1.takeWhile isDigit, isDigit c = true :=
          fun c hc => List.mem_takeWhile_imp hc
        have hsplit := takeWhile_drop_id isDigit t1
        cases hr : t1.drop (t1.takeWhile isDigit).length with
        | nil =>
          refine ⟨t1.takeWhile isDigit, [], [], ?_, hne, hdig, h2, Or.inl rfl, Or.inl rfl⟩
          conv_lhs => rw [← hsplit, hr]
          simp
        | cons c r =>
          rw [hr] at hg
          dsimp only at hg
          by_cases hdot : c = '.'
          · subst hdot
            rw [if_pos rfl] at hg
            by_cases hfs : (r.takeWhile isDigit).isEmpty
            · rw [if_pos hfs] at hg
              cases hg
            · rw [if_neg hfs] at hg
              have hexp := (grammar_after_iff_exp _).mp hg
              have hrsplit := takeWhile_drop_id isDigit r
              refine ⟨t1.takeWhile isDigit, '.' :: r.takeWhile isDigit,
                r.drop (r.takeWhile isDigit).length, ?_, hne, hdig, h2, ?_, hexp⟩
              · conv_lhs => rw [← hsplit, hr]
                rw [List.cons_append, hrsplit]
              · refine Or.inr ⟨r.takeWhile isDigit, rfl, ?_, ?_⟩
                · intro hh
                  exact hfs (by simp [hh])
                · exact fun d hd => List.mem_takeWhile_imp hd
          · rw [if_neg hdot] at hg
            have hexp := (grammar_after_iff_exp _).mp hg
            refine ⟨t1.takeWhile isDigit, [], c :: r, ?_, hne, hdig, h2, Or.inl rfl, hexp⟩
            conv_lhs => rw [← hsplit, hr]
            rw [List.nil_append]
  · rintro ⟨ds, fsPart, expPart, heq, hne, hdig, hlz, hfrac, hexp⟩
    have htw : t1.takeWhile isDigit = ds := shape_takeWhile_eq t1 ds fsPart expPart heq hdig hfrac hexp
    have hdr : t1.drop (t1.takeWhile isDigit).length = fsPart ++ expPart := by
      rw [htw, heq, List.drop_left]
    unfold grammar_num_core
    dsimp only
    rw [hdr, htw, if_neg (by simp [List.isEmpty_iff, hne]), if_neg hlz]
    rcases hfrac with rfl | ⟨fs, rfl, hfne, hfdig⟩
    · rcases hexp with rfl | ⟨e, sgn, digs, hee, hsgn, hdne, hddig, hrfl⟩
      · rfl
      · rw [List.nil_append, hrfl]
        dsimp only
        rw [if_neg (by rcases hee with rfl | rfl <;> decide)]
        exact (grammar_after_iff_exp _).mpr
          (Or.inr ⟨e, sgn, digs, hee, hsgn, hdne, hddig, rfl⟩)
    · rw [List.cons_append]
      dsimp only
      rw [if_pos rfl]
      have htwfs : (fs ++ expPart).takeWhile isDigit = fs := by
        rw [takeWhile_append_all fs _ hfdig,
          takeWhile_nil_of_head _ (exp_head_not_digit expPart hexp), List.append_nil]
      rw [htwfs, if_neg (by simp [List.isEmpty_iff, hfne]), List.drop_left]
      exact (grammar_after_iff_exp _).mpr hexp

lemma lz_transfer (ds tail : List Char) (hds : ∀ c ∈ ds, isDigit c = true)
    (hh0 : ds.head? = some '0') (hh2 : 2 ≤ ds.length) :
    2 ≤ (ds ++ tail).length ∧ (ds ++ tail).head? = some '0' ∧
      ('0' ≤ (ds ++ tail).getD 1 'x' ∧ (ds ++ tail).getD 1 'x' ≤ '9') := by
  obtain ⟨d0, d1, dtl, rfl⟩ : ∃ d0 d1 dtl, ds = d0 :: d1 :: dtl := by
    cases ds with
    | nil => simp at hh2
    | cons a l =>
      cases l with
      | nil => simp at hh2
      | cons b l2 => exact ⟨a, b, l2, rfl⟩
  refine ⟨by simp, by simpa using hh0, ?_⟩
  have hd1 : isDigit d1 = true := hds d1 (by simp)
  simp only [List.cons_append, List.getD_cons_succ, List.getD_cons_zero]
  simpa [isDigit, decide_eq_true_eq] using hd1

lemma head_getD_not_digit (fsPart expPart : List Char) (hfrac : FracShape fsPart)
    (hexp : ExpShape expPart) :
    ¬('0' ≤ (fsPart ++ expPart).getD 0 'x' ∧ (fsPart ++ expPart).getD 0 'x' ≤ '9') := by
  have hd := frac_exp_head_not_digit fsPart expPart hfrac hexp
  cases hfe : fsPart ++ expPart with
  | nil => decide
  | cons c0 rest =>
    simp only [List.getD_cons_zero]
    rintro ⟨ha, hb⟩
    have hc0 : isDigit c0 = false := hd c0 (by rw [hfe]; rfl)
    rw [isDigit, decide_eq_false_iff_not] at hc0
    exact hc0 ⟨ha, hb⟩

lemma before_analysis (num beforeE rest : List Char) (i1 : Nat) (u0 : Unit)
    (hnum : num = beforeE ++ rest)
    (h1 : ¬startswith num ['.'] = true)
    (h2 : ¬(2 ≤ num.length ∧ num.head? = some '0' ∧
      ('0' ≤ num.getD 1 'x' ∧ num.getD 1 'x' ≤ '9')))
    (h3 : ¬beforeE.getLast? = some '.')
    (h4 : ¬beforeE.length = 0)
    (hseg : num_seg_loop beforeE false i1 = .ok u0) :
    ∃ ds fsPart, beforeE = ds ++ fsPart ∧ ds ≠ [] ∧ (∀ c ∈ ds, isDigit c = true) ∧
      ¬(ds.head? = some '0' ∧ 2 ≤ ds.length) ∧ FracShape fsPart := by
  rcases num_seg_loop_false_decomp beforeE i1 u0 hseg with hall | ⟨ds, fs, heqb, hds, hfs⟩
  · refine ⟨beforeE, [], by simp, fun hh => h4 (by simp [hh]), hall, ?_, Or.inl rfl⟩
    rintro ⟨hh0, hh2⟩
    exact h2 (hnum ▸ lz_transfer beforeE rest hall hh0 hh2)
  · have hdsne : ds ≠ [] := by
      intro hh
      subst hh
      rw [List.nil_append] at heqb
      apply h1
      rw [startswith_single, hnum, heqb]
      simp
    have hfsne : fs ≠ [] := by
      intro hh
      subst hh
      exact h3 (heqb ▸ List.getLast?_concat ds)
    refine ⟨ds, '.' :: fs, heqb, hdsne, hds, ?_, Or.inr ⟨fs, rfl, hfsne, hfs⟩⟩
    rintro ⟨hh0, hh2⟩
    apply h2
    have hnum2 : num = ds ++ ('.' :: fs ++ rest) := by
      rw [hnum, heqb, List.append_assoc]
    exact hnum2 ▸ lz_transfer ds ('.' :: fs ++ rest) hds hh0 hh2

lemma num_seg_loop_dot (fs : List Char) (i : Nat) :
    num_seg_loop ('.' :: fs) false i = num_seg_loop fs true (i + 1) := by
  simp [num_seg_loop]

lemma rest_ok_iff_shape (num : List Char) (i1 : Nat) :
    (∃ u, validate_json_num_rest num i1 = .ok u) ↔ NumShape num := by
  constructor
  · rintro ⟨u, h⟩
    unfold validate_json_num_rest at h
    dsimp only at h
    by_cases h1 : startswith num ['.'] = true
    · rw [if_pos h1] at h
      cases h
    rw [if_neg h1] at h
    by_cases h2 : 2 ≤ num.length ∧ num.head? = some '0' ∧
        ('0' ≤ num.getD 1 'x' ∧ num.getD 1 'x' ≤ '9')
    · rw [if_pos h2] at h
      cases h
    rw [if_neg h2] at h
    by_cases h3 : (num.take (num.findIdx isE)).getLast? = some '.'
    · rw [if_pos h3] at h
      cases h
    rw [if_neg h3] at h
    by_cases h4 : (num.take (num.findIdx isE)).length = 0
    · rw [if_pos h4] at h
      cases h
    rw [if_neg h4] at h
    cases hseg : num_seg_loop (num.take (num.findIdx isE)) false i1 with
    | error e =>
      rw [hseg] at h
      cases h
    | ok u0 =>
      rw [hseg] at h
      dsimp only at h
      by_cases h5 : num.findIdx isE ≠ num.length
      · rw [if_pos h5] at h
        have hlt : num.findIdx isE < num.length :=
          lt_of_le_of_ne (List.findIdx_le_length isE) h5
        obtain ⟨E, hEget, heE⟩ : ∃ E, num.drop (num.findIdx isE) =
            E :: num.drop (num.findIdx isE + 1) ∧ isE E = true :=
          ⟨num[num.findIdx isE], List.drop_eq_getElem_cons hlt,
            @List.findIdx_getElem Char isE num hlt⟩
        have heEor : E = 'e' ∨ E = 'E' := by simpa [isE, decide_eq_true_eq] using heE
        have hsplit : num = num.take (num.findIdx isE) ++
            (E :: num.drop (num.findIdx isE + 1)) := by
          conv_lhs => rw [← List.take_append_drop (num.findIdx isE) num]
          rw [hEget]
        obtain ⟨ds, fsPart, hbe, hdsne, hds, hlz, hfrac⟩ :=
          before_analysis num (num.take (num.findIdx isE))
            (E :: num.drop (num.findIdx isE + 1)) i1 u0 hsplit h1 h2 h3 h4 hseg
        by_cases h6 : startswith (num.drop (num.findIdx isE + 1)) ['+'] = true ∨
            startswith (num.drop (num.findIdx isE + 1)) ['-'] = true
        · simp only [if_pos h6] at h
          by_cases h7 : ((num.drop (num.findIdx isE + 1)).tail).length = 0
          · rw [if_pos h7] at h
            cases h
          rw [if_neg h7] at h
          cases hexp : num_exp_loop ((num.drop (num.findIdx isE + 1)).tail)
              (num.findIdx isE + 2) with
          | error e2 =>
            rw [hexp] at h
            cases h
          | ok u2 =>
            have hdigs := num_exp_loop_digits _ _ u2 hexp
            rcases h6 with h6 | h6
            · have hA : num.drop (num.findIdx isE + 1) =
                  '+' :: (num.drop (num.findIdx isE + 1)).tail :=
                head?_cons_of_eq ((startswith_single _ _).mp h6)
              refine ⟨ds, fsPart, E :: ('+' :: (num.drop (num.findIdx isE + 1)).tail),
                  ?_, hdsne, hds, hlz, hfrac,
                  Or.inr ⟨E, ['+'], (num.drop (num.findIdx isE + 1)).tail, heEor,
                    Or.inr (Or.inl rfl), fun hh => h7 (by rw [hh]; rfl), hdigs, rfl⟩⟩
              conv_lhs => rw [hsplit]
              conv_lhs => rw [hbe]
              conv_lhs => rw [hA]
              exact List.append_assoc ds fsPart _
            · have hA : num.drop (num.findIdx isE + 1) =
                  '-' :: (num.drop (num.findIdx isE + 1)).tail :=
                head?_cons_of_eq ((startswith_single _ _).mp h6)
              refine ⟨ds, fsPart, E :: ('-' :: (num.drop (num.findIdx isE + 1)).tail),
                  ?_, hdsne, hds, hlz, hfrac,
                  Or.inr ⟨E, ['-'], (num.drop (num.findIdx isE + 1)).tail, heEor,
                    Or.inr (Or.inr rfl), fun hh => h7 (by rw [hh]; rfl), hdigs, rfl⟩⟩
              conv_lhs => rw [hsplit]
              conv_lhs => rw [hbe]
              conv_lhs => rw [hA]
              exact List.append_assoc ds fsPart _
        · simp only [if_neg h6] at h
          by_cases h7 : (num.drop (num.findIdx isE + 1)).length = 0
          · rw [if_pos h7] at h
            cases h
          rw [if_neg h7] at h
          cases hexp : num_exp_loop (num.drop (num.findIdx isE + 1))
              (num.findIdx isE + 1) with
          | error e2 =>
            rw [hexp] at h
            cases h
          | ok u2 =>
            have hdigs := num_exp_loop_digits _ _ u2 hexp
            refine ⟨ds, fsPart, E :: num.drop (num.findIdx isE + 1),
                ?_, hdsne, hds, hlz, hfrac,
                Or.inr ⟨E, [], num.drop (num.findIdx isE + 1), heEor,
                  Or.inl rfl, fun hh => h7 (by rw [hh]; rfl), hdigs, rfl⟩⟩
            conv_lhs => rw [hsplit]
            conv_lhs => rw [hbe]
            exact List.append_assoc ds fsPart _
      · push_neg at h5
        have hbeq : num.take (num.findIdx isE) = num := by
          rw [h5]
          exact List.take_length num
        obtain ⟨ds, fsPart, hbe, hdsne, hds, hlz, hfrac⟩ :=
          before_analysis num (num.take (num.findIdx isE)) [] i1 u0
            (by rw [hbeq, List.append_nil]) h1 h2 h3 h4 hseg
        exact ⟨ds, fsPart, [], by rw [← hbeq, hbe, List.append_nil], hdsne, hds, hlz,
          hfrac, Or.inl rfl⟩
  · rintro ⟨ds, fsPart, expPart, heq, hdsne, hds, hlz, hfrac, hexp⟩
    have hnum1 : num = (ds ++ fsPart) ++ expPart := by
      rw [heq, List.append_assoc]
    have hheadnum : num.head? = ds.head? := by
      rw [heq, List.head?_append_of_ne_nil ds hdsne]
    have hanotE : ∀ c ∈ ds ++ fsPart, isE c = false := by
      intro c hc
      rcases List.mem_append.mp hc with hc | hc
      · exact isE_of_digit (hds c hc)
      · rcases hfrac with rfl | ⟨fs, rfl, hfne, hfdig⟩
        · cases hc
        · rcases List.mem_cons.mp hc with rfl | hc
          · decide
          · exact isE_of_digit (hfdig c hc)
    have hfindIdx : num.findIdx isE = (ds ++ fsPart).length := by
      rcases hexp with rfl | ⟨e, sgn, digs, hee, hsgn, hdne, hdig, rfl⟩
      · have h0 : num.findIdx isE = num.length := by
          apply findIdx_all_none
          intro c hc
          rw [hnum1, List.append_nil] at hc
          exact hanotE c hc
        rw [h0, hnum1, List.append_nil]
      · have hE : isE e = true := by
          rcases hee with rfl | rfl <;> decide
        rw [hnum1, findIdx_append_none _ _ hanotE, List.findIdx_cons, hE, cond_true]
        omega
    have hbeE : num.take (num.findIdx isE) = ds ++ fsPart := by
      rw [hfindIdx]
      conv_lhs => rw [hnum1]
      exact List.take_left _ _
    have F1 : ¬startswith num ['.'] = true := by
      intro hc
      rw [startswith_single, hheadnum] at hc
      have hmem : '.' ∈ ds := by
        cases ds with
        | nil => cases hc
        | cons a l =>
          simp only [List.head?_cons, Option.some.injEq] at hc
          subst hc
          exact List.mem_cons_self _ _
      exact isDigit_ne_dot (hds '.' hmem) rfl
    have F2 : ¬(2 ≤ num.length ∧ num.head? = some '0' ∧
        ('0' ≤ num.getD 1 'x' ∧ num.getD 1 'x' ≤ '9')) := by
      rintro ⟨hl2, hh0, hd1⟩
      obtain ⟨d0, dtl, hdseq⟩ : ∃ d0 dtl, ds = d0 :: dtl := by
        cases ds with
        | nil => exact absurd rfl hdsne
        | cons a l => exact ⟨a, l, rfl⟩
      have hd00 : d0 = '0' := by
        rw [hheadnum, hdseq] at hh0
        simpa using hh0
      cases dtl with
      | cons d1c dtl2 =>
        refine hlz ⟨by rw [hdseq, hd00]; rfl, ?_⟩
        rw [hdseq]
        simp only [List.length_cons]
        omega
      | nil =>
        have hnum2 : num = '0' :: (fsPart ++ expPart) := by
          rw [heq, hdseq, hd00]
          rfl
        rw [hnum2] at hd1
        simp only [List.getD_cons_succ] at hd1
        exact head_getD_not_digit fsPart expPart hfrac hexp hd1
    have F3 : ¬(num.take (num.findIdx isE)).getLast? = some '.' := by
      rw [hbeE]
      intro hc
      rcases hfrac with rfl | ⟨fs, rfl, hfne, hfdig⟩
      · rw [List.append_nil] at hc
        exact isDigit_ne_dot (hds '.' (mem_of_getLast?_eq ds '.' hc)) rfl
      · cases fs with
        | nil => exact hfne rfl
        | cons f0 ftl =>
          rw [List.getLast?_append, List.getLast?_cons_cons] at hc
          obtain ⟨lfs, hlfs⟩ := getLast?_of_ne_nil (f0 :: ftl) (by simp)
          rw [hlfs] at hc
          have hld : lfs = '.' := by simpa using hc
          exact isDigit_ne_dot (hfdig lfs (mem_of_getLast?_eq _ _ hlfs)) hld
    have F4 : ¬(num.take (num.findIdx isE)).length = 0 := by
      rw [hbeE]
      intro hc
      rw [List.length_append] at hc
      exact hdsne (List.length_eq_zero.mp (by omega))
    have hsegok : num_seg_loop (ds ++ fsPart) false i1 = .ok () := by
      rcases hfrac with rfl | ⟨fs, rfl, hfne, hfdig⟩
      · rw [List.append_nil]
        exact num_seg_loop_all_digits ds hds false i1
      · rw [num_seg_loop_digits ds hds ('.' :: fs) false i1, num_seg_loop_dot fs i1]
        exact num_seg_loop_all_digits fs hfdig true (i1 + 1)
    refine ⟨(), ?_⟩
    unfold validate_json_num_rest
    dsimp only
    rw [if_neg F1, if_neg F2, if_neg F3, if_neg F4, hbeE, hsegok]
    dsimp only
    rcases hexp with rfl | ⟨e, sgn, digs, hee, hsgn, hdne, hdig, rfl⟩
    · have hEq : num.findIdx isE = num.length := by
        rw [hfindIdx, hnum1, List.append_nil]
      rw [if_neg (not_not_intro hEq)]
    · have hE : isE e = true := by
        rcases hee with rfl | rfl <;> decide
      have hlen : num.length = (ds ++ fsPart).length + (sgn ++ digs).length + 1 := by
        rw [hnum1]
        simp only [List.length_append, List.length_cons]
        omega
      have hNe : num.findIdx isE ≠ num.length := by
        rw [hfindIdx, hlen]
        omega
      rw [if_pos hNe]
      have hAfter : num.drop (num.findIdx isE + 1) = sgn ++ digs := by
        rw [hfindIdx]
        conv_lhs => rw [hnum1, List.append_cons]
        rw [show (ds ++ fsPart).length + 1 = ((ds ++ fsPart) ++ [e]).length from by
          simp only [List.length_append, List.length_singleton]]
        exact List.drop_left _ _
      rw [hAfter]
      have hdlen : ¬(digs.length = 0) := fun hc => hdne (List.length_eq_zero.mp hc)
      rcases hsgn with rfl | rfl | rfl
      · rw [List.nil_append]
        obtain ⟨g0, gtl, hgeq⟩ : ∃ g0 gtl, digs = g0 :: gtl := by
          cases digs with
          | nil => exact absurd rfl hdne
          | cons a l => exact ⟨a, l, rfl⟩
        have hg0 := isDigit_ne_sign (hdig g0 (by rw [hgeq]; exact List.mem_cons_self _ _))
        have hnos : ¬(startswith digs ['+'] = true ∨ startswith digs ['-'] = true) := by
          rintro (hc | hc)
          · rw [startswith_single, hgeq] at hc
            simp only [List.head?_cons, Option.some.injEq] at hc
            exact hg0.1 hc
          · rw [startswith_single, hgeq] at hc
            simp only [List.head?_cons, Option.some.injEq] at hc
            exact hg0.2 hc
        simp only [if_neg hnos]
        rw [if_neg hdlen, num_exp_loop_all digs hdig (num.findIdx isE + 1)]
      · have hyes : startswith (['+'] ++ digs) ['+'] = true ∨
            startswith (['+'] ++ digs) ['-'] = true := Or.inl (by simp [startswith])
        simp only [if_pos hyes]
        simp only [List.cons_append, List.nil_append, List.tail_cons]
        rw [if_neg hdlen, num_exp_loop_all digs hdig (num.findIdx isE + 2)]
      · have hyes : startswith (['-'] ++ digs) ['+'] = true ∨
            startswith (['-'] ++ digs) ['-'] = true := Or.inr (by simp [startswith])
        simp only [if_pos hyes]
        simp only [List.cons_append, List.nil_append, List.tail_cons]
        rw [if_neg hdlen, num_exp_loop_all digs hdig (num.findIdx isE + 2)]

lemma validate_ok_value (tok : List Char) (i : Nat) (q : ℚ)
    (h : validate_json_number tok i = .ok q) : q = decimal_value tok := by
  unfold validate_json_number at h
  dsimp only at h
  by_cases hlen : tok.length = 0
  · rw [if_pos hlen] at h
    cases h
  rw [if_neg hlen] at h
  cases hrest : validate_json_num_rest
      (if startswith tok ['-'] = true then tok.tail else tok)
      (if startswith tok ['-'] = true then i + 1 else i) with
  | error e =>
    rw [hrest] at h
    cases h
  | ok u =>
    rw [hrest] at h
    dsimp only at h
    cases h
    rfl

lemma validate_ok_iff (tok : List Char) (i : Nat) :
    (∃ q, validate_json_number tok i = .ok q) ↔ grammar_number tok = true := by
  unfold validate_json_number grammar_number
  dsimp only
  by_cases hsw : startswith tok ['-'] = true
  · have hneg : tok.head? = some '-' := (startswith_single tok '-').mp hsw
    simp only [if_pos hsw, if_pos hneg]
    by_cases hlen : tok.length = 0
    · rw [List.length_eq_zero] at hlen
      subst hlen
      simp [startswith] at hsw
    · rw [if_neg hlen]
      constructor
      · rintro ⟨q, hq⟩
        cases hrest : validate_json_num_rest tok.tail (i + 1) with
        | error e => simp [hrest] at hq
        | ok u =>
          exact (grammar_core_iff_shape tok.tail).mpr
            ((rest_ok_iff_shape tok.tail (i + 1)).mp ⟨u, hrest⟩)
      · intro hg
        obtain ⟨u, hrest⟩ :=
          (rest_ok_iff_shape tok.tail (i + 1)).mpr ((grammar_core_iff_shape tok.tail).mp hg)
        exact ⟨decimal_value tok, by rw [hrest]⟩
  · have hneg : ¬(tok.head? = some '-') :=
      fun hc => hsw ((startswith_single tok '-').mpr hc)
    simp only [if_neg hsw, if_neg hneg]
    by_cases hlen : tok.length = 0
    · rw [if_pos hlen]
      constructor
      · rintro ⟨q, hq⟩
        cases hq
      · intro hg
        rw [List.length_eq_zero] at hlen
        subst hlen
        exact absurd hg (by decide)
    · rw [if_neg hlen]
      constructor
      · rintro ⟨q, hq⟩
        cases hrest : validate_json_num_rest tok i with
        | error e => simp [hrest] at hq
        | ok u =>
          exact (grammar_core_iff_shape tok).mpr ((rest_ok_iff_shape tok i).mp ⟨u, hrest⟩)
      · intro hg
        obtain ⟨u, hrest⟩ :=
          (rest_ok_iff_shape tok i).mpr ((grammar_core_iff_shape tok).mp hg)
        exact ⟨decimal_value tok, by rw [hrest]⟩

/-- C4: at every input position, the number parser succeeds exactly when the
greedily scanned token has an optional leading minus, a non-empty all-digit
integer part with no leading zero immediately followed by another digit, an
optional dot immediately followed by at least one digit, and an optional
exponent marker followed by an optional sign and at least one digit; every
violation is a SyntaxError, and a valid token converts to its numeric value
(Python float conversion modelled as the exact decimal value of the token)
with the cursor advanced past the token. -/
theorem claim_C4 (json : List Char) (i : Nat) :
    ((∃ r, parse_json_number json i = .ok r) ↔
      grammar_number (numToken json i) = true) ∧
    ((∃ e, parse_json_number json i = .error e) ↔
      ¬grammar_number (numToken json i) = true) ∧
    (∀ q j, parse_json_number json i = .ok (q, j) →
      q = decimal_value (numToken json i) ∧ j = i + (numToken json i).length) := by
  refine ⟨?_, ?_, ?_⟩
  · constructor
    · rintro ⟨r, hr⟩
      unfold parse_json_number at hr
      cases hv : validate_json_number (numToken json i) i with
      | error e =>
        rw [hv] at hr
        cases hr
      | ok q => exact (validate_ok_iff _ i).mp ⟨q, hv⟩
    · intro hg
      obtain ⟨q, hv⟩ := (validate_ok_iff (numToken json i) i).mpr hg
      refine ⟨(q, i + (numToken json i).length), ?_⟩
      unfold parse_json_number
      rw [hv]
  · constructor
    · rintro ⟨e, he⟩ hg
      obtain ⟨q, hv⟩ := (validate_ok_iff (numToken json i) i).mpr hg
      unfold parse_json_number at he
      rw [hv] at he
      cases he
    · intro hg
      cases hv : validate_json_number (numToken json i) i with
      | error e =>
        refine ⟨e, ?_⟩
        unfold parse_json_number
        rw [hv]
      | ok q => exact absurd ((validate_ok_iff _ i).mp ⟨q, hv⟩) hg
  · intro q j hj
    unfold parse_json_number at hj
    cases hv : validate_json_number (numToken json i) i with
    | error e =>
      rw [hv] at hj
      cases hj
    | ok q2 =>
      rw [hv] at hj
      dsimp only at hj
      cases hj
      exact ⟨validate_ok_value _ i _ hv, rfl⟩

/-- Witness for C4: the token scanned from `12.5e2` satisfies the grammar and
parses successfully, while the token scanned from `01` violates the
leading-zero rule and raises a SyntaxError. -/
theorem claim_C4_witness :
    (∃ r, parse_json_number ("12.5e2".toList) 0 = .ok r) ∧
    (∃ e, parse_json_number ("01".toList) 0 = .error e) :=
  ⟨(claim_C4 ("12.5e2".toList) 0).1.mpr (by decide),
   (claim_C4 ("01".toList) 0).2.1.mpr (by decide)⟩

lemma stripQuotes_exact (x : List Char) (hx : x ≠ [])
    (h1 : x.head? ≠ some '"') (h2 : x.getLast? ≠ some '"') :
    stripQuotes ('"' :: (x ++ ['"'])) = x := by
  obtain ⟨c0, x', rfl⟩ : ∃ c0 x', x = c0 :: x' := by
    cases x with
    | nil => exact absurd rfl hx
    | cons a l => exact ⟨a, l, rfl⟩
  have hc0 : ¬(c0 = '"') := by simpa using h1
  obtain ⟨a, ha⟩ := getLast?_of_ne_nil (c0 :: x') (by simp)
  have hane : ¬(a = '"') := fun hh => h2 (by rw [ha, hh])
  have hrev : (c0 :: x').reverse = a :: ((c0 :: x').reverse).tail := by
    apply head?_cons_of_eq
    rw [List.head?_reverse]
    exact ha
  unfold stripQuotes
  rw [show ('"' :: (c0 :: x' ++ ['"'])).dropWhile (fun c => c = '"') = c0 :: x' ++ ['"'] from by
    simp [List.dropWhile_cons, hc0]]
  rw [show (c0 :: x' ++ ['"']).reverse = '"' :: (c0 :: x').reverse from by simp]
  rw [show ('"' :: (c0 :: x').reverse).dropWhile (fun c => c = '"') = (c0 :: x').reverse from by
    rw [List.dropWhile_cons, if_pos (by simp)]
    conv_lhs => rw [hrev]
    rw [List.dropWhile_cons, if_neg (by simp [hane])]
    exact hrev.symm]
  exact List.reverse_reverse _

lemma escq_cons (c : Char) (l : List Char) :
    escq (c :: l) = (if c = '"' then ['"', '"'] else [c]) ++ escq l := rfl

lemma escq_ne_nil (w : List Char) (hw : w ≠ []) : escq w ≠ [] := by
  cases w with
  | nil => exact absurd rfl hw
  | cons c l =>
    rw [escq_cons]
    by_cases hc : c = '"' <;> simp [hc]

lemma escq_head (w : List Char) (c : Char) (hc : ¬(c = '"')) (h : w.head? = some c) :
    (escq w).head? = some c := by
  cases w with
  | nil => cases h
  | cons a l =>
    simp only [List.head?_cons, Option.some.injEq] at h
    subst h
    rw [escq_cons, if_neg hc]
    rfl

lemma escq_getLast (w : List Char) (a : Char) (hane : ¬(a = '"'))
    (h : w.getLast? = some a) : (escq w).getLast? = some a := by
  induction w with
  | nil => cases h
  | cons c l ih =>
    cases l with
    | nil =>
      simp only [List.getLast?_singleton, Option.some.injEq] at h
      subst h
      rw [escq_cons, if_neg hane]
      rfl
    | cons d l2 =>
      rw [List.getLast?_cons_cons] at h
      have h2 := ih h
      rw [escq_cons, List.getLast?_append, h2]
      rfl

lemma collapseQQ_escq (w : List Char) : collapseQQ (escq w) = w := by
  induction w with
  | nil => rfl
  | cons c l ih =>
    by_cases hc : c = '"'
    · subst hc
      rw [escq_cons, if_pos rfl]
      show collapseQQ ('"' :: '"' :: escq l) = '"' :: l
      rw [collapseQQ]
      simp [ih]
    · rw [escq_cons, if_neg hc]
      cases hel : escq l with
      | nil =>
        have : l = [] := by
          cases l with
          | nil => rfl
          | cons d l2 => exact absurd hel (escq_ne_nil (d :: l2) (by simp))
        subst this
        rfl
      | cons d rest =>
        show collapseQQ (c :: d :: rest) = c :: l
        rw [collapseQQ, if_neg (fun hh => hc hh.1)]
        rw [← hel, ih]

lemma unescape_serq (w : List Char) (hw : cellOk w) (hne : w ≠ []) :
    unescape_csv_cell ('"' :: (escq w ++ ['"'])) = w := by
  obtain ⟨c0, w', rfl⟩ : ∃ c0 w', w = c0 :: w' := by
    cases w with
    | nil => exact absurd rfl hne
    | cons a l => exact ⟨a, l, rfl⟩
  obtain ⟨h1, h2⟩ := hw
  have hc0 : ¬(c0 = '"') := by simpa using h1
  obtain ⟨a, ha⟩ := getLast?_of_ne_nil (c0 :: w') (by simp)
  have hane : ¬(a = '"') := fun hh => h2 (by rw [ha, hh])
  unfold unescape_csv_cell
  rw [stripQuotes_exact (escq (c0 :: w')) (escq_ne_nil _ (by simp))
    (by rw [escq_head (c0 :: w') c0 hc0 rfl]; simpa using hc0)
    (by rw [escq_getLast (c0 :: w') a hane ha]; simpa using hane)]
  exact collapseQQ_escq _

lemma step_enter_plain (csv : List Char) (L : List (List (List Char))) (R : List (List Char))
    (k : Nat) (q lw : Bool) (i : Nat) (c : Char)
    (hq : ¬(c = '"')) (hcm : ¬(c = ',')) (hnl : ¬(c = '\n')) :
    parse_csv_step csv '"' ',' '\n' i c ⟨L, R, true, k, q, lw⟩ =
      .ok ⟨L, R, false, i, false, false⟩ := by
  simp [parse_csv_step, hq, hcm, hnl]

lemma step_enter_quote (csv : List Char) (L : List (List (List Char))) (R : List (List Char))
    (k : Nat) (q lw : Bool) (i : Nat) :
    parse_csv_step csv '"' ',' '\n' i '"' ⟨L, R, true, k, q, lw⟩ =
      .ok ⟨L, R, false, i, true, false⟩ := by
  simp [parse_csv_step]

lemma step_plain_incell (csv : List Char) (L : List (List (List Char))) (R : List (List Char))
    (k : Nat) (i : Nat) (c : Char)
    (hq : ¬(c = '"')) (hcm : ¬(c = ',')) (hnl : ¬(c = '\n')) :
    parse_csv_step csv '"' ',' '\n' i c ⟨L, R, false, k, false, false⟩ =
      .ok ⟨L, R, false, k, false, false⟩ := by
  simp [parse_csv_step, hq, hcm, hnl]

lemma step_qbody_nonquote (csv : List Char) (L : List (List (List Char))) (R : List (List Char))
    (k : Nat) (i : Nat) (c : Char) (hq : ¬(c = '"')) :
    parse_csv_step csv '"' ',' '\n' i c ⟨L, R, false, k, true, false⟩ =
      .ok ⟨L, R, false, k, true, false⟩ := by
  by_cases hcm : c = ','
  · subst hcm; simp [parse_csv_step]
  · by_cases hnl : c = '\n'
    · subst hnl; simp [parse_csv_step]
    · simp [parse_csv_step, hq, hcm, hnl]

lemma step_quote_in_quoted (csv : List Char) (L : List (List (List Char)))
    (R : List (List Char)) (k : Nat) (i : Nat) :
    parse_csv_step csv '"' ',' '\n' i '"' ⟨L, R, false, k, true, false⟩ =
      .ok ⟨L, R, false, k, true, true⟩ := by
  simp [parse_csv_step]

lemma step_quote_after_quote (csv : List Char) (L : List (List (List Char)))
    (R : List (List Char)) (k : Nat) (i : Nat) :
    parse_csv_step csv '"' ',' '\n' i '"' ⟨L, R, false, k, true, true⟩ =
      .ok ⟨L, R, false, k, true, false⟩ := by
  simp [parse_csv_step]

lemma step_close_comma_unquoted (csv : List Char) (L : List (List (List Char)))
    (R : List (List Char)) (k : Nat) (i : Nat) :
    parse_csv_step csv '"' ',' '\n' i ',' ⟨L, R, false, k, false, false⟩ =
      .ok ⟨L, R ++ [(csv.drop k).take (i - k)], true, k, false, false⟩ := by
  simp [parse_csv_step]

lemma step_close_nl_unquoted (csv : List Char) (L : List (List (List Char)))
    (R : List (List Char)) (k : Nat) (i : Nat) :
    parse_csv_step csv '"' ',' '\n' i '\n' ⟨L, R, false, k, false, false⟩ =
      .ok ⟨L ++ [R ++ [(csv.drop k).take (i - k)]], [], true, k, false, false⟩ := by
  simp [parse_csv_step]

lemma step_close_comma_quoted (csv : List Char) (L : List (List (List Char)))
    (R : List (List Char)) (k : Nat) (i : Nat) :
    parse_csv_step csv '"' ',' '\n' i ',' ⟨L, R, false, k, true, true⟩ =
      .ok ⟨L, R ++ [unescape_csv_cell ((csv.drop k).take (i - k))], true, k, false, false⟩ := by
  simp [parse_csv_step]

lemma step_close_nl_quoted (csv : List Char) (L : List (List (List Char)))
    (R : List (List Char)) (k : Nat) (i : Nat) :
    parse_csv_step csv '"' ',' '\n' i '\n' ⟨L, R, false, k, true, true⟩ =
      .ok ⟨L ++ [R ++ [unescape_csv_cell ((csv.drop k).take (i - k))]], [], true, k, false, false⟩ := by
  simp [parse_csv_step]

lemma step_enter_comma (csv : List Char) (L : List (List (List Char)))
    (R : List (List Char)) (k : Nat) (q lw : Bool) (i : Nat) :
    parse_csv_step csv '"' ',' '\n' i ',' ⟨L, R, true, k, q, lw⟩ =
      .ok ⟨L, R ++ [[]], true, i, false, false⟩ := by
  simp [parse_csv_step]

lemma step_enter_nl (csv : List Char) (L : List (List (List Char)))
    (R : List (List Char)) (k : Nat) (q lw : Bool) (i : Nat) :
    parse_csv_step csv '"' ',' '\n' i '\n' ⟨L ,R, true, k, q, lw⟩ =
      .ok ⟨L ++ [R ++ [[]]], [], true, i, false, false⟩ := by
  simp [parse_csv_step]

lemma parse_csv_go_append (csv : List Char) (qc cc nl : Char) (a b : List Char) :
    ∀ (i : Nat) (st : CsvSt),
    parse_csv_go csv qc cc nl (a ++ b) i st =
      match parse_csv_go csv qc cc nl a i st with
      | .error e => .error e
      | .ok st2 => parse_csv_go csv qc cc nl b (i + a.length) st2 := by
  induction a with
  | nil =>
    intro i st
    simp [parse_csv_go]
  | cons c rest ih =>
    intro i st
    rw [List.cons_append]
    simp only [parse_csv_go]
    cases parse_csv_step csv qc cc nl i c st with
    | error e => rfl
    | ok st2 =>
      dsimp only
      rw [ih (i + 1) st2]
      have h : i + 1 + rest.length = i + (rest.length + 1) := by omega
      rw [h]
      simp only [List.length_cons]

lemma scan_plain (csv : List Char) (L : List (List (List Char))) (R : List (List Char))
    (k : Nat) (l : List Char)
    (hl : ∀ c ∈ l, ¬(c = '"') ∧ ¬(c = ',') ∧ ¬(c = '\n')) : ∀ i,
    parse_csv_go csv '"' ',' '\n' l i ⟨L, R, false, k, false, false⟩ =
      .ok ⟨L, R, false, k, false, false⟩ := by
  induction l with
  | nil => intro i; rfl
  | cons c rest ih =>
    intro i
    obtain ⟨h1, h2, h3⟩ := hl c (by simp)
    simp only [parse_csv_go, step_plain_incell csv L R k i c h1 h2 h3]
    exact ih (fun d hd => hl d (by simp [hd])) (i + 1)

lemma scan_qbody (csv : List Char) (L : List (List (List Char))) (R : List (List Char))
    (k : Nat) (w : List Char) : ∀ i,
    parse_csv_go csv '"' ',' '\n' (escq w) i ⟨L, R, false, k, true, false⟩ =
      .ok ⟨L, R, false, k, true, false⟩ := by
  induction w with
  | nil => intro i; rfl
  | cons c rest ih =>
    intro i
    by_cases hc : c = '"'
    · subst hc
      rw [show escq ('"' :: rest) = '"' :: '"' :: escq rest from rfl]
      simp only [parse_csv_go, step_quote_in_quoted, step_quote_after_quote]
      exact ih (i + 1 + 1)
    · rw [show escq (c :: rest) = c :: escq rest from by rw [escq_cons, if_neg hc]; rfl]
      simp only [parse_csv_go, step_qbody_nonquote csv L R k i c hc]
      exact ih (i + 1)

lemma nonspec_of_not_mem (w : List Char) (hspec : ¬('"' ∈ w ∨ ',' ∈ w ∨ '\n' ∈ w)) :
    ∀ c ∈ w, ¬(c = '"') ∧ ¬(c = ',') ∧ ¬(c = '\n') := by
  push_neg at hspec
  intro c hc
  refine ⟨fun hh => ?_, fun hh => ?_, fun hh => ?_⟩
  · exact hspec.1 (hh ▸ hc)
  · exact hspec.2.1 (hh ▸ hc)
  · exact hspec.2.2 (hh ▸ hc)

lemma scan_cell_comma (csv pre suf w : List Char) (hw : cellOk w)
    (L : List (List (List Char))) (R : List (List Char)) (k i : Nat)
    (hi : i = pre.length)
    (hcsv : csv = pre ++ (serCell w ++ (',' :: suf))) :
    parse_csv_go csv '"' ',' '\n' (serCell w ++ [',']) i ⟨L, R, true, k, false, false⟩ =
      .ok ⟨L, R ++ [w], true, i, false, false⟩ := by
  subst hi
  have hdrop : csv.drop pre.length = serCell w ++ (',' :: suf) := by
    rw [hcsv]
    exact List.drop_left _ _
  by_cases hspec : '"' ∈ w ∨ ',' ∈ w ∨ '\n' ∈ w
  · have hser : serCell w = '"' :: (escq w ++ ['"']) := by
      unfold serCell str_to_csv
      rw [if_pos hspec]
    have hwne : w ≠ [] := by
      intro hh
      subst hh
      rcases hspec with h | h | h <;> cases h
    rw [hser]
    rw [show ('"' :: (escq w ++ ['"'])) ++ [','] = '"' :: (escq w ++ ('"' :: [','])) from by
      simp]
    simp only [parse_csv_go, step_enter_quote]
    rw [parse_csv_go_append]
    rw [scan_qbody csv L R pre.length w (pre.length + 1)]
    dsimp only
    simp only [parse_csv_go, step_quote_in_quoted, step_close_comma_quoted]
    have hslice : (csv.drop pre.length).take (pre.length + 1 + (escq w).length + 1 - pre.length)
        = '"' :: (escq w ++ ['"']) := by
      rw [hdrop, hser]
      rw [show pre.length + 1 + (escq w).length + 1 - pre.length =
        ('"' :: (escq w ++ ['"'])).length from by
        simp only [List.length_cons, List.length_append, List.length_singleton,
          List.length_nil]
        omega]
      exact List.take_left _ _
    rw [hslice, unescape_serq w hw hwne]
  · have hser : serCell w = w := by
      unfold serCell str_to_csv
      rw [if_neg hspec]
    have hall := nonspec_of_not_mem w hspec
    rw [hser]
    cases w with
    | nil =>
      simp only [List.nil_append, parse_csv_go, step_enter_comma]
    | cons c0 w2 =>
      obtain ⟨h1, h2, h3⟩ := hall c0 (by simp)
      rw [List.cons_append]
      simp only [parse_csv_go, step_enter_plain csv L R k false false pre.length c0 h1 h2 h3]
      rw [parse_csv_go_append]
      rw [scan_plain csv L R pre.length w2 (fun d hd => hall d (by simp [hd])) (pre.length + 1)]
      dsimp only
      simp only [parse_csv_go, step_close_comma_unquoted]
      have hslice : (csv.drop pre.length).take (pre.length + 1 + w2.length - pre.length)
          = c0 :: w2 := by
        rw [hdrop, hser]
        rw [show pre.length + 1 + w2.length - pre.length = (c0 :: w2).length from by
          simp only [List.length_cons]
          omega]
        exact List.take_left _ _
      rw [hslice]

lemma scan_cell_nl (csv pre suf w : List Char) (hw : cellOk w)
    (L : List (List (List Char))) (R : List (List Char)) (k i : Nat)
    (hi : i = pre.length)
    (hcsv : csv = pre ++ (serCell w ++ ('\n' :: suf))) :
    parse_csv_go csv '"' ',' '\n' (serCell w ++ ['\n']) i ⟨L, R, true, k, false, false⟩ =
      .ok ⟨L ++ [R ++ [w]], [], true, i, false, false⟩ := by
  subst hi
  have hdrop : csv.drop pre.length = serCell w ++ ('\n' :: suf) := by
    rw [hcsv]
    exact List.drop_left _ _
  by_cases hspec : '"' ∈ w ∨ ',' ∈ w ∨ '\n' ∈ w
  · have hser : serCell w = '"' :: (escq w ++ ['"']) := by
      unfold serCell str_to_csv
      rw [if_pos hspec]
    have hwne : w ≠ [] := by
      intro hh
      subst hh
      rcases hspec with h | h | h <;> cases h
    rw [hser]
    rw [show ('"' :: (escq w ++ ['"'])) ++ ['\n'] = '"' :: (escq w ++ ('"' :: ['\n'])) from by
      simp]
    simp only [parse_csv_go, step_enter_quote]
    rw [parse_csv_go_append]
    rw [scan_qbody csv L R pre.length w (pre.length + 1)]
    dsimp only
    simp only [parse_csv_go, step_quote_in_quoted, step_close_nl_quoted]
    have hslice : (csv.drop pre.length).take (pre.length + 1 + (escq w).length + 1 - pre.length)
        = '"' :: (escq w ++ ['"']) := by
      rw [hdrop, hser]
      rw [show pre.length + 1 + (escq w).length + 1 - pre.length =
        ('"' :: (escq w ++ ['"'])).length from by
        simp only [List.length_cons, List.length_append, List.length_singleton,
          List.length_nil]
        omega]
      exact List.take_left _ _
    rw [hslice, unescape_serq w hw hwne]
  · have hser : serCell w = w := by
      unfold serCell str_to_csv
      rw [if_neg hspec]
    have hall := nonspec_of_not_mem w hspec
    rw [hser]
    cases w with
    | nil =>
      simp only [List.nil_append, parse_csv_go, step_enter_nl]
    | cons c0 w2 =>
      obtain ⟨h1, h2, h3⟩ := hall c0 (by simp)
      rw [List.cons_append]
      simp only [parse_csv_go, step_enter_plain csv L R k false false pre.length c0 h1 h2 h3]
      rw [parse_csv_go_append]
      rw [scan_plain csv L R pre.length w2 (fun d hd => hall d (by simp [hd])) (pre.length + 1)]
      dsimp only
      simp only [parse_csv_go, step_close_nl_unquoted]
      have hslice : (csv.drop pre.length).take (pre.length + 1 + w2.length - pre.length)
          = c0 :: w2 := by
        rw [hdrop, hser]
        rw [show pre.length + 1 + w2.length - pre.length = (c0 :: w2).length from by
          simp only [List.length_cons]
          omega]
        exact List.take_left _ _
      rw [hslice]

lemma scan_last_cell (csv pre w : List Char) (hw : cellOk w)
    (L : List (List (List Char))) (R : List (List Char)) (k i : Nat)
    (hi : i = pre.length)
    (hcsv : csv = pre ++ serCell w)
    (hp : w = [] → pre.getLast? = some ',') :
    parse_csv_finish csv ','
        (parse_csv_go csv '"' ',' '\n' (serCell w) i ⟨L, R, true, k, false, false⟩) =
      .ok (L ++ [R ++ [w]]) := by
  subst hi
  have hdrop : csv.drop pre.length = serCell w := by
    rw [hcsv]
    exact List.drop_left _ _
  by_cases hspec : '"' ∈ w ∨ ',' ∈ w ∨ '\n' ∈ w
  · have hser : serCell w = '"' :: (escq w ++ ['"']) := by
      unfold serCell str_to_csv
      rw [if_pos hspec]
    have hwne : w ≠ [] := by
      intro hh
      subst hh
      rcases hspec with h | h | h <;> cases h
    rw [hser]
    rw [show '"' :: (escq w ++ ['"']) = '"' :: (escq w ++ ('"' :: [])) from by simp]
    simp only [parse_csv_go, step_enter_quote]
    rw [parse_csv_go_append]
    rw [scan_qbody csv L R pre.length w (pre.length + 1)]
    dsimp only
    simp only [parse_csv_go, step_quote_in_quoted]
    simp only [parse_csv_finish, csv_epilogue, csvFinish]
    rw [hdrop, hser, unescape_serq w hw hwne]
    simp
  · have hser : serCell w = w := by
      unfold serCell str_to_csv
      rw [if_neg hspec]
    have hall := nonspec_of_not_mem w hspec
    rw [hser]
    cases w with
    | nil =>
      simp only [parse_csv_go]
      simp only [parse_csv_finish, csv_epilogue, csvFinish]
      have hlast : csv.getLast? = some ',' := by
        rw [hcsv, hser]
        simpa using hp rfl
      simp [hlast]
    | cons c0 w2 =>
      obtain ⟨h1, h2, h3⟩ := hall c0 (by simp)
      simp only [parse_csv_go, step_enter_plain csv L R k false false pre.length c0 h1 h2 h3]
      rw [scan_plain csv L R pre.length w2 (fun d hd => hall d (by simp [hd])) (pre.length + 1)]
      simp only [parse_csv_finish, csv_epilogue, csvFinish]
      rw [hdrop, hser]
      simp

lemma serRow_single (w : List Char) : serRow [w] = serCell w := rfl

lemma serRow_cons (w w2 : List Char) (rr : List (List Char)) :
    serRow (w :: w2 :: rr) = (serCell w ++ [',']) ++ serRow (w2 :: rr) := rfl

lemma scan_row_nl (csv suf : List Char) : ∀ (row : List (List Char)) (pre : List Char)
    (L : List (List (List Char))) (R : List (List Char)) (k i : Nat),
    row ≠ [] → (∀ c ∈ row, cellOk c) → i = pre.length →
    csv = pre ++ ((serRow row ++ ['\n']) ++ suf) →
    ∃ k2, parse_csv_go csv '"' ',' '\n' (serRow row ++ ['\n']) i ⟨L, R, true, k, false, false⟩ =
      .ok ⟨L ++ [R ++ row], [], true, k2, false, false⟩ := by
  intro row
  induction row with
  | nil =>
    intro pre L R k i hne
    exact absurd rfl hne
  | cons w rr ih =>
    intro pre L R k i hne hcells hi hcsv
    cases rr with
    | nil =>
      refine ⟨i, ?_⟩
      rw [serRow_single]
      exact scan_cell_nl csv pre suf w (hcells w (by simp)) L R k i hi
        (by rw [hcsv]; simp [serRow_single, List.append_assoc])
    | cons w2 rr2 =>
      rw [show serRow (w :: w2 :: rr2) ++ ['\n'] =
          (serCell w ++ [',']) ++ (serRow (w2 :: rr2) ++ ['\n']) from by
        rw [serRow_cons]
        simp [List.append_assoc]]
      rw [parse_csv_go_append]
      rw [scan_cell_comma csv pre (serRow (w2 :: rr2) ++ ('\n' :: suf)) w
        (hcells w (by simp)) L R k i hi
        (by rw [hcsv, serRow_cons]; simp [List.append_assoc])]
      dsimp only
      obtain ⟨k2, hgo⟩ := ih (pre ++ (serCell w ++ [','])) L (R ++ [w]) i
        (i + (serCell w ++ [',']).length)
        (by simp) (fun c hc => hcells c (by simp [hc]))
        (by rw [hi]; simp)
        (by rw [hcsv, serRow_cons]; simp [List.append_assoc])
      refine ⟨k2, ?_⟩
      rw [hgo]
      simp [List.append_assoc]

lemma scan_rows (csv suf : List Char) : ∀ (rows : List (List (List Char))) (pre : List Char)
    (L : List (List (List Char))) (k i : Nat),
    (∀ r ∈ rows, r ≠ []) → (∀ r ∈ rows, ∀ c ∈ r, cellOk c) → i = pre.length →
    csv = pre ++ (concatMap (fun r => serRow r ++ ['\n']) rows ++ suf) →
    ∃ k2, parse_csv_go csv '"' ',' '\n' (concatMap (fun r => serRow r ++ ['\n']) rows) i
        ⟨L, [], true, k, false, false⟩ = .ok ⟨L ++ rows, [], true, k2, false, false⟩ := by
  intro rows
  induction rows with
  | nil =>
    intro pre L k i _ _ hi hcsv
    exact ⟨k, by simp [concatMap, parse_csv_go]⟩
  | cons r rows2 ih =>
    intro pre L k i h1 h2 hi hcsv
    rw [show concatMap (fun r => serRow r ++ ['\n']) (r :: rows2) =
      (serRow r ++ ['\n']) ++ concatMap (fun r => serRow r ++ ['\n']) rows2 from rfl]
    rw [parse_csv_go_append]
    obtain ⟨k2, hgo⟩ := scan_row_nl csv (concatMap (fun r => serRow r ++ ['\n']) rows2 ++ suf)
      r pre L [] k i (h1 r (by simp)) (h2 r (by simp)) hi
      (by rw [hcsv]; simp [concatMap, List.append_assoc])
    rw [hgo]
    dsimp only
    obtain ⟨k3, hgo2⟩ := ih (pre ++ (serRow r ++ ['\n'])) (L ++ [[] ++ r]) k2
      (i + (serRow r ++ ['\n']).length)
      (fun rr hr => h1 rr (by simp [hr])) (fun rr hr => h2 rr (by simp [hr]))
      (by rw [hi]; simp)
      (by rw [hcsv]; simp [concatMap, List.append_assoc])
    refine ⟨k3, ?_⟩
    rw [hgo2]
    simp

lemma scan_last_row (csv : List Char) : ∀ (row : List (List Char)) (pre : List Char)
    (L : List (List (List Char))) (R : List (List Char)) (k i : Nat),
    row ≠ [] → (∀ c ∈ row, cellOk c) →
    (row = [[]] → pre.getLast? = some ',') → i = pre.length →
    csv = pre ++ serRow row →
    parse_csv_finish csv ','
        (parse_csv_go csv '"' ',' '\n' (serRow row) i ⟨L, R, true, k, false, false⟩) =
      .ok (L ++ [R ++ row]) := by
  intro row
  induction row with
  | nil =>
    intro pre L R k i hne
    exact absurd rfl hne
  | cons w rr ih =>
    intro pre L R k i hne hcells hp hi hcsv
    cases rr with
    | nil =>
      rw [serRow_single]
      exact scan_last_cell csv pre w (hcells w (by simp)) L R k i hi
        (by rw [hcsv, serRow_single])
        (fun hw => hp (by rw [hw]))
    | cons w2 rr2 =>
      rw [serRow_cons]
      rw [parse_csv_go_append]
      rw [scan_cell_comma csv pre (serRow (w2 :: rr2)) w (hcells w (by simp)) L R k i hi
        (by rw [hcsv, serRow_cons]; simp [List.append_assoc])]
      dsimp only
      have hrec := ih (pre ++ (serCell w ++ [','])) L (R ++ [w]) i
        (i + (serCell w ++ [',']).length)
        (by simp) (fun c hc => hcells c (by simp [hc]))
        (fun hh => by simp [List.getLast?_append])
        (by rw [hi]; simp)
        (by rw [hcsv, serRow_cons]; simp [List.append_assoc])
      rw [hrec]
      simp

end FileProc

namespace FileProc

lemma map_serCell (l : List (List Char)) :
    List.map (fun cell => str_to_csv cell '"' ',' '\n') l = List.map serCell l := rfl

lemma strs_to_csv_concat (rows : List (List (List Char))) (last : List (List Char)) :
    strs_to_csv (rows ++ [last]) '"' ',' '\n' =
      concatMap (fun r => serRow r ++ ['\n']) rows ++ serRow last := by
  induction rows with
  | nil => simp [strs_to_csv, concatMap, serRow, joinWith, map_serCell]
  | cons r rows2 ih =>
    cases rows2 with
    | nil =>
      simp [strs_to_csv, concatMap, serRow, joinWith, map_serCell, List.append_assoc]
    | cons r2 rows3 =>
      rw [show strs_to_csv ((r :: r2 :: rows3) ++ [last]) '"' ',' '\n' =
        serRow r ++ ['\n'] ++ strs_to_csv ((r2 :: rows3) ++ [last]) '"' ',' '\n' from rfl]
      rw [ih]
      simp [concatMap, List.append_assoc]

/-- C1 counterexample: the one-cell table whose only cell is a single double
quote serializes to four quote characters, which parse back as one empty cell:
the Python strip removes every edge quote, so the round trip is lossy. -/
theorem claim_C1_counterexample :
    strs_to_csv [[['"']]] '"' ',' '\n' = ['"', '"', '"', '"'] ∧
    parse_csv (strs_to_csv [[['"']]] '"' ',' '\n') '"' ',' '\n' = .ok [[[]]] ∧
    (Except.ok [[[]]] : Except SyntaxErr (List (List (List Char)))) ≠ .ok [[['"']]] := by
  refine ⟨by decide, by decide, by decide⟩

/-- C1 (amended): the CSV round trip holds for every table whose rows are all
non-empty, whose last row is not the single empty cell, and whose cells never
start or end with a double quote; the parser then returns exactly the original
table, ragged rows included. -/
theorem claim_C1 (t : List (List (List Char)))
    (h1 : ∀ row ∈ t, row ≠ [])
    (h2 : t.getLast? ≠ some [[]])
    (h3 : ∀ row ∈ t, ∀ cell ∈ row, cellOk cell) :
    parse_csv (strs_to_csv t '"' ',' '\n') '"' ',' '\n' = .ok t := by
  rcases List.eq_nil_or_concat t with rfl | ⟨rows, last, rfl⟩
  · rfl
  · simp only [List.concat_eq_append] at h1 h2 h3 ⊢
    have hser := strs_to_csv_concat rows last
    unfold parse_csv csvInit
    rw [hser]
    rw [parse_csv_go_append]
    obtain ⟨k2, hgoA⟩ := scan_rows
      (concatMap (fun r => serRow r ++ ['\n']) rows ++ serRow last) (serRow last)
      rows [] [] 0 0
      (fun r hr => h1 r (by simp [hr])) (fun r hr => h3 r (by simp [hr])) rfl
      (by simp)
    rw [hgoA]
    dsimp only
    have hlast := scan_last_row
      (concatMap (fun r => serRow r ++ ['\n']) rows ++ serRow last)
      last (concatMap (fun r => serRow r ++ ['\n']) rows) ([] ++ rows) [] k2
      (0 + (concatMap (fun r => serRow r ++ ['\n']) rows).length)
      (h1 last (by simp)) (h3 last (by simp))
      (fun hh => absurd (show (rows ++ [last]).getLast? = some [[]] from by
        rw [List.getLast?_concat, hh]) h2)
      (by omega) rfl
    cases hgoB : parse_csv_go
        (concatMap (fun r => serRow r ++ ['\n']) rows ++ serRow last) '"' ',' '\n'
        (serRow last) (0 + (concatMap (fun r => serRow r ++ ['\n']) rows).length)
        ⟨[] ++ rows, [], true, k2, false, false⟩ with
    | error e =>
      rw [hgoB] at hlast
      simp only [parse_csv_finish] at hlast
      cases hlast
    | ok st =>
      rw [hgoB] at hlast
      simp only [parse_csv_finish] at hlast
      dsimp only
      rw [hlast]
      simp

/-- Witness for C1: a concrete ragged table with a comma-bearing cell
satisfies the three amended hypotheses and round-trips exactly. -/
theorem claim_C1_witness :
    (∀ row ∈ ([[['a', ',', 'b'], ['c']], [['d']]] : List (List (List Char))), row ≠ []) ∧
    ([[['a', ',', 'b'], ['c']], [['d']]] : List (List (List Char))).getLast? ≠ some [[]] ∧
    (∀ row ∈ ([[['a', ',', 'b'], ['c']], [['d']]] : List (List (List Char))),
      ∀ cell ∈ row, cellOk cell) ∧
    parse_csv (strs_to_csv [[['a', ',', 'b'], ['c']], [['d']]] '"' ',' '\n') '"' ',' '\n' =
      .ok [[['a', ',', 'b'], ['c']], [['d']]] :=
  ⟨by decide, by decide, by decide,
   claim_C1 [[['a', ',', 'b'], ['c']], [['d']]] (by decide) (by decide) (by decide)⟩

end FileProc
